import Mathlib

/-!
Verification of the sheila test-orchestration core against its specification.

The Rust sources are embedded shallowly: pure functions become Lean functions,
stateful code becomes explicit state passing, `HashMap`/`IndexMap` become
association lists (with keyed access for `HashMap`, whose iteration order is
unspecified in Rust and is therefore either never observed or made an explicit
parameter below), wall-clock instants become `Nat` parameters, and `f64`
values that are only ever stored and compared become `Rat`.
-/

namespace Sheila

/-- Association-list lookup used to model keyed `HashMap`/`IndexMap` access. -/
def assoc_find {α : Type} (k : String) : List (String × α) → Option α
  | [] => none
  | (k₂, v) :: rest => if k₂ = k then some v else assoc_find k rest

/-- Association-list update of an existing key, keeping its position
(`HashMap`/`IndexMap` value replacement). -/
def assoc_update {α : Type} (k : String) (v : α) : List (String × α) → List (String × α)
  | [] => []
  | (k₂, v₂) :: rest =>
    if k₂ = k then (k, v) :: rest else (k₂, v₂) :: assoc_update k v rest

/-- `IndexMap::insert`: replace in place when the key exists, append otherwise. -/
def im_insert {α : Type} (k : String) (v : α) : List (String × α) → List (String × α)
  | [] => [(k, v)]
  | (k₂, v₂) :: rest =>
    if k₂ = k then (k, v) :: rest else (k₂, v₂) :: im_insert k v rest

/-- `HashMap::remove`: returns the removed value and the remaining table. -/
def assoc_remove {α : Type} (k : String) : List (String × α) → Option α × List (String × α)
  | [] => (none, [])
  | (k₂, v) :: rest =>
    if k₂ = k then (some v, rest)
    else
      match assoc_remove k rest with
      | (found, rest₂) => (found, (k₂, v) :: rest₂)

/-- The single-quote character, used when embedding Rust string formatting. -/
def sq : String := (Char.ofNat 39).toString

/-- Pattern `pat` is a prefix of `cs`. -/
def starts_with : List Char → List Char → Bool
  | [], _ => true
  | _ :: _, [] => false
  | p :: ps, c :: cs => p = c && starts_with ps cs

/-- Drop the pattern `pat` from the front of `cs` when it is a prefix. -/
def drop_pat : List Char → List Char → Option (List Char)
  | [], cs => some cs
  | _ :: _, [] => none
  | p :: ps, c :: cs => if p = c then drop_pat ps cs else none

/-- Substring test on character lists (`str::contains`). -/
def has_sub (pat : List Char) : List Char → Bool
  | [] => starts_with pat []
  | c :: cs => starts_with pat (c :: cs) || has_sub pat cs

/-- `str::contains` on strings. -/
def str_contains (s pat : String) : Bool := has_sub pat.toList s.toList

/-- One attempted match of the pattern in `format_mod_name`
at the current position (regex `::(__sheila_[^:]+_tests)::`):
after the literal `::__sheila_`, a maximal colon-free run must end with
`_tests` (with a nonempty stem, the `[^:]+`) and be followed by `::`.
Returns the remainder after the whole match. -/
def sheila_match (cs : List Char) : Option (List Char) :=
  match drop_pat "::__sheila_".toList cs with
  | none => none
  | some rest =>
    let run := rest.takeWhile (fun ch => ch ≠ ':')
    let rest₂ := rest.drop run.length
    if starts_with "_tests".toList.reverse run.reverse && run.length > 6 then
      drop_pat "::".toList rest₂
    else none

/-- Scan for the first pattern occurrence and replace it with `::`
(`Regex::replace` rewrites only the first match). -/
def sheila_replace : List Char → List Char
  | [] => []
  | c :: cs =>
    match sheila_match (c :: cs) with
    | some rest => "::".toList ++ rest
    | none => c :: sheila_replace cs

/-- `format_mod_name` (runners/cargo/utils.rs): collapse a generated
`::__sheila_…_tests::` module segment; identity otherwise. -/
def format_mod_name (name : String) : String :=
  if str_contains name "__sheila_" then String.mk (sheila_replace name.toList) else name

/-- Test status (`TestStatus`).
Modelled from the spec: the `test` module is not among the provided sources;
spec §3 lists the statuses as `Passed|Failed|Skipped|Ignored|Timeout`. -/
inductive TestStatus
  | Passed
  | Failed
  | Skipped
  | Ignored
  | Timeout
deriving DecidableEq, Repr

/-- The crate error enum (result.rs). -/
inductive Error
  | TestExecution (message : String)
  | TestSetup (message : String)
  | TestTeardown (message : String)
  | Fixture (message : String)
  | Hook (hook_type : String) (message : String)
  | Assertion (message : String)
  | Mock (message : String)
  | IntendedFailure (message : String)
  | RunnerConfig (message : String)
  | Reporter (message : String)
  | Parameterization (message : String)
  | Timeout (message : String)
  | Io (message : String)
  | Serialization (message : String)
  | InvalidConfig (message : String)
  | Generic (message : String)
deriving DecidableEq, Repr

def Error.test_execution (message : String) : Error := Error.TestExecution message

def Error.fixture (message : String) : Error := Error.Fixture message

def Error.hook (hook_type message : String) : Error := Error.Hook hook_type message

def Error.generic (message : String) : Error := Error.Generic message

/-- The `Display` rendering of `Error` (the `#[error(…)]` strings in result.rs). -/
def Error.display : Error → String
  | .TestExecution m => "Test execution failed: " ++ m
  | .TestSetup m => "Test setup failed: " ++ m
  | .TestTeardown m => "Test teardown failed: " ++ m
  | .Fixture m => "Fixture error: " ++ m
  | .Hook t m => "Hook execution failed: " ++ t ++ ": " ++ m
  | .Assertion m => "Assertion failed: " ++ m
  | .Mock m => "Mock error: " ++ m
  | .IntendedFailure m => "Intended failure: " ++ m
  | .RunnerConfig m => "Runner configuration error: " ++ m
  | .Reporter m => "Reporter error: " ++ m
  | .Parameterization m => "Parameterization error: " ++ m
  | .Timeout m => "Operation timed out: " ++ m
  | .Io m => "IO error: " ++ m
  | .Serialization m => "Serialization error: " ++ m
  | .InvalidConfig m => "Invalid configuration: " ++ m
  | .Generic m => m

/-- `SourceLocation` (types.rs / runners/cargo/types.rs). -/
structure SourceLocation where
  file : String
  line : Nat
  column : Nat
deriving DecidableEq, Repr

/-- `ErrorInfo` (types.rs and runners/cargo/types.rs declare the same struct). -/
structure ErrorInfo where
  location : Option SourceLocation
  message : Option String
  backtrace : List String
deriving DecidableEq, Repr

def ErrorInfo.new : ErrorInfo := { location := none, message := none, backtrace := [] }

def ErrorInfo.set_location (e : ErrorInfo) (file : String) (line column : Nat) : ErrorInfo :=
  { e with location := some { file := file, line := line, column := column } }

def ErrorInfo.set_message (e : ErrorInfo) (message : String) : ErrorInfo :=
  { e with message := some message }

/-- `ErrorInfo::format_error` (runners/cargo/types.rs). -/
def ErrorInfo.format_error (e : ErrorInfo) : String :=
  match e.location, e.message with
  | some loc, some msg =>
    "--> " ++ loc.file ++ ":" ++ toString loc.line ++ ":" ++ toString loc.column ++
      "\n    |\n    | " ++ msg ++ "\n    |"
  | some loc, none => "--> " ++ loc.file ++ ":" ++ toString loc.line ++ ":" ++ toString loc.column
  | none, some msg => msg
  | none, none => "Unknown error"

/-- `format_err_context` is referenced by `ErrorInfo::to_string` in types.rs but
its defining module is not among the provided sources.
Modelled from the spec: §7 describes the rendering as a compiler-style
annotated snippet pointer, matching the visible `format_error` analog. -/
def format_err_context (loc : Option SourceLocation) (msg : Option String) : String :=
  ErrorInfo.format_error { location := loc, message := msg, backtrace := [] }

/-- `ErrorInfo::to_string` (types.rs): delegates to `format_err_context`. -/
def ErrorInfo.to_string (e : ErrorInfo) : String := format_err_context e.location e.message

/-- `TestMetadata`.
Modelled from the spec: the `test` module is not among the provided sources;
every call site constructs it from the test name (`TestMetadata::new(name)`). -/
structure TestMetadata where
  name : String
deriving DecidableEq, Repr

def TestMetadata.new (name : String) : TestMetadata := { name := name }

/-- `TestContext`.
Modelled from the spec: the `test` module is not among the provided sources;
the context carries the test identity/metadata (ids elided). -/
structure TestContext where
  meta : TestMetadata
deriving DecidableEq, Repr

def TestContext.new (meta : TestMetadata) : TestContext := { meta := meta }

/-- `TestResult`.
Modelled from the spec: the `test` module is not among the provided sources;
spec §3 gives identity, name, metadata, status, optional duration, optional
structured error, with `finish` fixing status and error (ids/times elided).
The pre-`finish` status is never observed on any path in this development;
`Skipped` stands in as the initial value. -/
structure TestResult where
  name : String
  metadata : TestMetadata
  status : TestStatus
  duration_ms : Option Rat
  error : Option Error
deriving DecidableEq, Repr

def TestResult.new (name : String) (metadata : TestMetadata) : TestResult :=
  { name := name, metadata := metadata, status := TestStatus.Skipped,
    duration_ms := none, error := none }

def TestResult.finish (r : TestResult) (status : TestStatus) (error : Option Error) :
    TestResult :=
  { r with status := status, error := error }

def TestResult.passed (r : TestResult) : Bool :=
  match r.status with
  | TestStatus.Passed => true
  | _ => false

/-- `SuiteResult` (suite.rs); ids and wall-clock fields elided. -/
structure SuiteResult where
  name : String
  test_results : List TestResult
  total_tests : Nat
  passed_tests : Nat
  failed_tests : Nat
  skipped_tests : Nat
  error : Option Error
deriving DecidableEq, Repr

def SuiteResult.new (name : String) : SuiteResult :=
  { name := name, test_results := [], total_tests := 0, passed_tests := 0,
    failed_tests := 0, skipped_tests := 0, error := none }

/-- `SuiteResult::add_test_result` (suite.rs). The Rust match carries a
wildcard arm doing nothing; for the five statuses of spec §3 the listed arms
are exhaustive, so the wildcard is unreachable. -/
def SuiteResult.add_test_result (s : SuiteResult) (result : TestResult) : SuiteResult :=
  let s := { s with total_tests := s.total_tests + 1 }
  let s :=
    match result.status with
    | TestStatus.Passed => { s with passed_tests := s.passed_tests + 1 }
    | TestStatus.Failed => { s with failed_tests := s.failed_tests + 1 }
    | TestStatus.Timeout => { s with failed_tests := s.failed_tests + 1 }
    | TestStatus.Skipped => { s with skipped_tests := s.skipped_tests + 1 }
    | TestStatus.Ignored => { s with skipped_tests := s.skipped_tests + 1 }
  { s with test_results := s.test_results ++ [result] }

/-- `SuiteResult::finish` (suite.rs); wall-clock fields elided. -/
def SuiteResult.finish (s : SuiteResult) (error : Option Error) : SuiteResult :=
  { s with error := error }

/-- `SuiteResult::all_passed` (suite.rs). -/
def SuiteResult.all_passed (s : SuiteResult) : Bool :=
  s.failed_tests = 0 && s.error.isNone

/-- `RunnerConfig` (runners/mod.rs); only the field the embedded code paths
read is kept, the remaining configuration knobs are never consulted by them. -/
structure RunnerConfig where
  fail_fast : Bool
deriving DecidableEq, Repr

/-- `RunResult` (runners/mod.rs); ids and wall-clock fields elided. -/
structure RunResult where
  suite_results : List SuiteResult
  config : RunnerConfig
  total_suites : Nat
  passed_suites : Nat
  failed_suites : Nat
  skipped_suites : Nat
  total_tests : Nat
  passed_tests : Nat
  failed_tests : Nat
  skipped_tests : Nat
  error : Option Error
deriving DecidableEq, Repr

def RunResult.new (config : RunnerConfig) : RunResult :=
  { suite_results := [], config := config, total_suites := 0, passed_suites := 0,
    failed_suites := 0, skipped_suites := 0, total_tests := 0, passed_tests := 0,
    failed_tests := 0, skipped_tests := 0, error := none }

/-- `RunResult::add_suite_result` (runners/mod.rs). -/
def RunResult.add_suite_result (r : RunResult) (result : SuiteResult) : RunResult :=
  let r := { r with
    total_suites := r.total_suites + 1,
    total_tests := r.total_tests + result.total_tests,
    passed_tests := r.passed_tests + result.passed_tests,
    failed_tests := r.failed_tests + result.failed_tests,
    skipped_tests := r.skipped_tests + result.skipped_tests }
  let r :=
    if result.all_passed then { r with passed_suites := r.passed_suites + 1 }
    else if result.failed_tests > 0 || result.error.isSome then
      { r with failed_suites := r.failed_suites + 1 }
    else { r with skipped_suites := r.skipped_suites + 1 }
  { r with suite_results := r.suite_results ++ [result] }

/-- `RunResult::finish` (runners/mod.rs); wall-clock fields elided. -/
def RunResult.finish (r : RunResult) (error : Option Error) : RunResult :=
  { r with error := error }

/-- `RunResult::all_passed` (runners/mod.rs). -/
def RunResult.all_passed (r : RunResult) : Bool :=
  r.failed_tests = 0 && r.failed_suites = 0 && r.error.isNone

/-- `TestExecutable` (runners/cargo/mod.rs). -/
structure TestExecutable where
  path : String
  name : String
  package_name : String
  target_crate : String
deriving DecidableEq, Repr

/-- `TestExecutable::determine_target_crate` (runners/cargo/mod.rs). -/
def TestExecutable.determine_target_crate (path : String) : String :=
  if str_contains path "examples" then "examples"
  else if str_contains path "cli" then "cli"
  else if str_contains path "core" then "core"
  else if str_contains path "server" then "server"
  else if str_contains path "proc-macros" || str_contains path "proc_macros" then
    "proc_macros"
  else "examples"

def TestExecutable.new (path name package_name : String) : TestExecutable :=
  { path := path, name := name, package_name := package_name,
    target_crate := TestExecutable.determine_target_crate path }

namespace cargo

/-- `create_failed_suite_result` (runners/cargo/utils.rs). -/
def create_failed_suite_result (suite_name : String) (error : Error) : SuiteResult :=
  let name := format_mod_name suite_name
  let suite_result := SuiteResult.new name
  let test_result := TestResult.new (suite_name ++ "_system_error")
    (TestMetadata.new (name ++ " (system error)"))
  let test_result := test_result.finish TestStatus.Failed (some error)
  suite_result.add_test_result test_result

/-- `CargoTestRunner::execute_tests` (runners/cargo/mod.rs).
`exec_test` spawns a child process and runs the poll loop; its outcome per
executable is supplied as an oracle value paired with the executable.  The
returned list of executable names records which executables were actually
processed, so fail-fast short-circuiting is observable. -/
def execute_tests_go (result : RunResult) (executed : List String) :
    List (TestExecutable × Except Error SuiteResult) → RunResult × List String
  | [] =>
    let result := if result.error.isNone then result.finish none else result
    (result, executed)
  | (executable, outcome) :: rest =>
    let suite_result :=
      match outcome with
      | Except.ok r => r
      | Except.error e => create_failed_suite_result executable.name e
    let all_passed := suite_result.all_passed
    let result := result.add_suite_result suite_result
    let executed := executed ++ [executable.name]
    if result.config.fail_fast && !all_passed then
      (result.finish (some (Error.test_execution "Failing fast due to test failure")),
        executed)
    else execute_tests_go result executed rest

def execute_tests (config : RunnerConfig)
    (executables : List (TestExecutable × Except Error SuiteResult)) :
    RunResult × List String :=
  execute_tests_go (RunResult.new config) [] executables

end cargo

/-- `FixtureScope` (fixtures/scope.rs). -/
inductive FixtureScope
  | Session
  | Suite
  | Test
  | Invocation
deriving DecidableEq, Repr

/-- `FixtureSetupFn` (fixtures/scope.rs): a named setup callback.  The boxed
`Any` value it produces is elided (`Unit`); the outcome per context is the
function itself. -/
structure FixtureSetupFn where
  name : String
  exec : TestContext → Except Error Unit

/-- `FixtureTeardownFn` (fixtures/scope.rs); the consumed boxed value is
elided. -/
structure FixtureTeardownFn where
  name : String
  exec : TestContext → Except Error Unit

/-- `FixtureDefinition` (fixtures/scope.rs); id and metadata elided. -/
structure FixtureDefinition where
  name : String
  scope : FixtureScope
  required : Bool
  is_async : Bool
  dependencies : List String
  setup : Option FixtureSetupFn
  teardown : Option FixtureTeardownFn

def FixtureDefinition.new (name : String) (scope : FixtureScope) : FixtureDefinition :=
  { name := name, scope := scope, setup := none, teardown := none,
    dependencies := [], required := true, is_async := false }

def FixtureDefinition.with_dependencies (f : FixtureDefinition) (deps : List String) :
    FixtureDefinition :=
  { f with dependencies := deps }

def FixtureDefinition.with_setup (f : FixtureDefinition) (name : String)
    (setup : TestContext → Except Error Unit) : FixtureDefinition :=
  { f with setup := some { name := name, exec := setup } }

def FixtureDefinition.with_teardown (f : FixtureDefinition) (name : String)
    (teardown : TestContext → Except Error Unit) : FixtureDefinition :=
  { f with teardown := some { name := name, exec := teardown } }

/-- `FixtureDependencyGraph` (fixtures/dependency.rs); the two `IndexMap`s
become insertion-ordered association lists. -/
structure FixtureDependencyGraph where
  dependencies : List (String × List String)
  fixtures : List (String × FixtureDefinition)

def FixtureDependencyGraph.new : FixtureDependencyGraph :=
  { dependencies := [], fixtures := [] }

/-- `FixtureDependencyGraph::add_fixture` (fixtures/dependency.rs). -/
def FixtureDependencyGraph.add_fixture (g : FixtureDependencyGraph)
    (fixture : FixtureDefinition) : FixtureDependencyGraph :=
  { dependencies := im_insert fixture.name fixture.dependencies g.dependencies,
    fixtures := im_insert fixture.name fixture g.fixtures }

/-- The registered fixture names, in registration order (`fixtures.keys()`). -/
def FixtureDependencyGraph.keys (g : FixtureDependencyGraph) : List String :=
  g.fixtures.map Prod.fst

/-- `self.dependencies.get(name)`, defaulting to no dependencies. -/
def FixtureDependencyGraph.deps (g : FixtureDependencyGraph) (name : String) :
    List String :=
  (assoc_find name g.dependencies).getD []

/-- `self.fixtures.contains_key(name)`. -/
def FixtureDependencyGraph.contains_fixture (g : FixtureDependencyGraph)
    (name : String) : Bool :=
  (assoc_find name g.fixtures).isSome

/-- `FixtureDependencyGraph::get_fixture` (fixtures/dependency.rs). -/
def FixtureDependencyGraph.get_fixture (g : FixtureDependencyGraph) (name : String) :
    Option FixtureDefinition :=
  assoc_find name g.fixtures

/-- The two `Error::fixture` failure shapes of `visit_fixture`, plus the
fuel sentinel of this embedding (proved unreachable below). -/
inductive FixtureError
  | circular (name : String)
  | undefined (name : String) (dep : String)
  | out_of_fuel
deriving DecidableEq, Repr

/-- The `Error::fixture(format!(…))` messages of fixtures/dependency.rs. -/
def FixtureError.message : FixtureError → String
  | .circular name =>
    "Circular dependency detected involving fixture " ++ sq ++ name ++ sq
  | .undefined name dep =>
    "Fixture " ++ sq ++ name ++ sq ++ " depends on undefined fixture " ++ sq ++ dep ++ sq
  | .out_of_fuel => "out of fuel"

/-- The dependency loop inside `visit_fixture` (fixtures/dependency.rs):
check each dependency is registered, then recurse through the supplied
`visit` callback, threading the visited/result state. -/
def visit_deps (g : FixtureDependencyGraph)
    (visit : String → List String → List String → List String →
      Except FixtureError (List String × List String))
    (ds : List String) (name : String) (visited temp result : List String) :
    Except FixtureError (List String × List String) :=
  match ds with
  | [] => Except.ok (visited, result)
  | d :: rest =>
    if g.contains_fixture d then
      match visit d visited temp result with
      | Except.error e => Except.error e
      | Except.ok (v, r) => visit_deps g visit rest name v temp r
    else Except.error (FixtureError.undefined name d)

/-- `FixtureDependencyGraph::visit_fixture` (fixtures/dependency.rs): DFS
with a temporary-visit stack for cycle detection.  The Rust recursion has no
explicit bound; `fuel` makes it structural, and resolution always supplies
enough fuel (proved below: the stack grows by one distinct registered name
per level).  The `IndexSet`s `visited`/`temp_visited` are only tested for
membership, so lists suffice; `temp_visited.insert` before the loop and
`.remove` after it become passing `name :: temp` to the loop. -/
def visit_fixture (g : FixtureDependencyGraph) :
    Nat → String → List String → List String → List String →
    Except FixtureError (List String × List String)
  | 0, _, _, _, _ => Except.error FixtureError.out_of_fuel
  | fuel + 1, name, visited, temp, result =>
    if name ∈ temp then Except.error (FixtureError.circular name)
    else if name ∈ visited then Except.ok (visited, result)
    else
      match visit_deps g (visit_fixture g fuel) (g.deps name) name visited
          (name :: temp) result with
      | Except.error e => Except.error e
      | Except.ok (v, r) => Except.ok (name :: v, r ++ [name])

/-- The top-level loop of `resolve_order` over `fixtures.keys()` in
registration order. -/
def resolve_order_go (g : FixtureDependencyGraph) :
    List String → List String → List String → Except FixtureError (List String)
  | [], _, result => Except.ok result
  | k :: ks, visited, result =>
    if k ∈ visited then resolve_order_go g ks visited result
    else
      match visit_fixture g (g.fixtures.length + 1) k visited [] result with
      | Except.error e => Except.error e
      | Except.ok (v, r) => resolve_order_go g ks v r

/-- `FixtureDependencyGraph::resolve_order` (fixtures/dependency.rs). -/
def FixtureDependencyGraph.resolve_order (g : FixtureDependencyGraph) :
    Except FixtureError (List String) :=
  resolve_order_go g g.keys [] []

/-- `FixtureDependencyGraph::has_circular_dependencies`
(fixtures/dependency.rs): resolution fails. -/
def FixtureDependencyGraph.has_circular_dependencies (g : FixtureDependencyGraph) :
    Bool :=
  match g.resolve_order with
  | Except.error _ => true
  | Except.ok _ => false

/-- Boolean membership (for executable edge/cycle tests). -/
def mem_b (x : String) : List String → Bool
  | [] => false
  | y :: ys => x = y || mem_b x ys

/-- The dependency edge `a → b`: fixture `a` declares dependency `b`. -/
def FixtureDependencyGraph.edge_b (g : FixtureDependencyGraph) (a b : String) : Bool :=
  mem_b b (g.deps a)

/-- Consecutive elements are dependency edges. -/
def chain_b (g : FixtureDependencyGraph) : List String → Bool
  | [] => true
  | [_] => true
  | a :: b :: rest => g.edge_b a b && chain_b g (b :: rest)

/-- A nonempty edge chain whose last element has an edge back to its head. -/
def cycle_b (g : FixtureDependencyGraph) : List String → Bool
  | [] => false
  | a :: rest => chain_b g (a :: rest) && g.edge_b (rest.getLastD a) a

/-- The graph has a dependency cycle. -/
def HasCycle (g : FixtureDependencyGraph) : Prop := ∃ c, cycle_b g c = true

/-- `m` lies on some dependency cycle. -/
def InvolvedInCycle (g : FixtureDependencyGraph) (m : String) : Prop :=
  ∃ c, cycle_b g c = true ∧ m ∈ c

/-- Every declared dependency name is registered (executable form). -/
def AllDepsRegB (g : FixtureDependencyGraph) : Bool :=
  g.dependencies.all (fun p => p.2.all (fun d => g.contains_fixture d))

/-- The index of the first occurrence of `x`. -/
def idx_of (x : String) : List String → Nat
  | [] => 0
  | y :: ys => if y = x then 0 else idx_of x ys + 1

/-- Dependencies appear in the list, strictly before their dependents. -/
def DepsClosed (g : FixtureDependencyGraph) (l : List String) : Prop :=
  ∀ a ∈ l, ∀ d ∈ g.deps a, d ∈ l ∧ idx_of d l < idx_of a l

/-- The DFS stack invariant: each stack entry has a dependency edge to the
entry above it, the top entry having an edge to the name being visited. -/
inductive Stacked (g : FixtureDependencyGraph) : List String → String → Prop
  | nil (n : String) : Stacked g [] n
  | cons (t : String) (rest : List String) (n : String) :
      n ∈ g.deps t → Stacked g rest t → Stacked g (t :: rest) n

/-- There is a nonempty dependency path from `m` to `n`. -/
def path_to (g : FixtureDependencyGraph) (m n : String) : Prop :=
  ∃ mid, chain_b g (m :: mid ++ [n]) = true

/-- The visited/result state invariant of the DFS. -/
def StateInv (g : FixtureDependencyGraph) (visited result : List String) : Prop :=
  (∀ x, x ∈ visited ↔ x ∈ result) ∧ result.Nodup ∧
    (∀ x ∈ result, x ∈ g.keys) ∧ DepsClosed g result

/-- Result classification for one `visit_fixture` call. -/
def VisitPost (g : FixtureDependencyGraph) (temp result : List String) (name : String) :
    Except FixtureError (List String × List String) → Prop
  | Except.ok (v, r) =>
    (∃ Δ, r = result ++ Δ) ∧ (∀ x ∈ r, x ∈ result ∨ x ∉ temp) ∧
      StateInv g v r ∧ name ∈ r
  | Except.error (FixtureError.circular m) => InvolvedInCycle g m
  | Except.error _ => False

/-- Result classification for one dependency loop. -/
def DepsPost (g : FixtureDependencyGraph) (temp result : List String) (ds : List String) :
    Except FixtureError (List String × List String) → Prop
  | Except.ok (v, r) =>
    (∃ Δ, r = result ++ Δ) ∧ (∀ x ∈ r, x ∈ result ∨ x ∉ temp) ∧
      StateInv g v r ∧ ∀ d ∈ ds, d ∈ r
  | Except.error (FixtureError.circular m) => InvolvedInCycle g m
  | Except.error _ => False

/-- Whether a resolution outcome is the circular-dependency error. -/
def is_circular_err : Except FixtureError (List String) → Bool
  | Except.error (FixtureError.circular _) => true
  | _ => false

/-- Result classification for the top-level resolution loop. -/
def ResolvePost (g : FixtureDependencyGraph) (result ks : List String) :
    Except FixtureError (List String) → Prop
  | Except.ok l =>
    (∃ Δ, l = result ++ Δ) ∧ l.Nodup ∧ (∀ x ∈ l, x ∈ g.keys) ∧ DepsClosed g l ∧
      ∀ k ∈ ks, k ∈ l
  | Except.error (FixtureError.circular m) => InvolvedInCycle g m
  | Except.error _ => False

/-- A concrete acyclic graph: `C → B → A`, registered in order A, B, C. -/
def c4_g_acyclic : FixtureDependencyGraph :=
  ((FixtureDependencyGraph.new.add_fixture
    (FixtureDefinition.new "A" FixtureScope.Test)).add_fixture
    ((FixtureDefinition.new "B" FixtureScope.Test).with_dependencies ["A"])).add_fixture
    ((FixtureDefinition.new "C" FixtureScope.Test).with_dependencies ["B"])

/-- A concrete two-cycle: `A → B → A`, all names registered. -/
def c4_g_cycle : FixtureDependencyGraph :=
  (FixtureDependencyGraph.new.add_fixture
    ((FixtureDefinition.new "A" FixtureScope.Test).with_dependencies ["B"])).add_fixture
    ((FixtureDefinition.new "B" FixtureScope.Test).with_dependencies ["A"])

/-- A graph with both an unregistered dependency (`A → Z`) met first in
registration order and a genuine cycle (`B → B`). -/
def c4_g_ce : FixtureDependencyGraph :=
  (FixtureDependencyGraph.new.add_fixture
    ((FixtureDefinition.new "A" FixtureScope.Test).with_dependencies ["Z"])).add_fixture
    ((FixtureDefinition.new "B" FixtureScope.Test).with_dependencies ["B"])

/-- `FixtureRegistry` (fixtures/dependency.rs); the instance values (boxed
`Any`) are elided to `Unit`, leaving the keyed tables. -/
structure FixtureRegistry where
  graph : FixtureDependencyGraph
  suite_instances : List (String × Unit)
  test_instances : List (String × Unit)

def FixtureRegistry.new : FixtureRegistry :=
  { graph := FixtureDependencyGraph.new, suite_instances := [], test_instances := [] }

def FixtureRegistry.register_fixture (r : FixtureRegistry) (fixture : FixtureDefinition) :
    FixtureRegistry :=
  { r with graph := r.graph.add_fixture fixture }

/-- The loop shared by `setup_suite_fixtures`/`setup_test_fixtures`
(fixtures/dependency.rs), which differ only in the matched scope and the
instance table: walk the resolved order; for each fixture of the requested
scope with a setup function, run it (`?`-propagating failure) and store an
instance.  The returned name list records the setup invocations
performed. -/
def setup_scope_go (g : FixtureDependencyGraph) (scope : FixtureScope)
    (ctx : TestContext) :
    List String → List (String × Unit) → List String →
    List String × Except Error (List (String × Unit))
  | [], insts, invoked => (invoked, Except.ok insts)
  | n :: rest, insts, invoked =>
    match g.get_fixture n with
    | none => setup_scope_go g scope ctx rest insts invoked
    | some fx =>
      if fx.scope = scope then
        match fx.setup with
        | some setup_fn =>
          match setup_fn.exec ctx with
          | Except.error e => (invoked ++ [n], Except.error e)
          | Except.ok _ =>
            setup_scope_go g scope ctx rest (im_insert n () insts) (invoked ++ [n])
        | none => setup_scope_go g scope ctx rest insts invoked
      else setup_scope_go g scope ctx rest insts invoked

/-- The loop shared by `teardown_suite_fixtures`/`teardown_test_fixtures`
(fixtures/dependency.rs): walk the reversed resolved order; for each fixture
of the scope whose instance is present, remove it and run its teardown
function if any (`?`-propagating failure). -/
def teardown_scope_go (g : FixtureDependencyGraph) (scope : FixtureScope)
    (ctx : TestContext) :
    List String → List (String × Unit) → List String →
    List String × Except Error (List (String × Unit))
  | [], insts, invoked => (invoked, Except.ok insts)
  | n :: rest, insts, invoked =>
    match g.get_fixture n with
    | none => teardown_scope_go g scope ctx rest insts invoked
    | some fx =>
      if fx.scope = scope then
        match assoc_remove n insts with
        | (some _, insts₂) =>
          match fx.teardown with
          | some teardown_fn =>
            match teardown_fn.exec ctx with
            | Except.error e => (invoked ++ [n], Except.error e)
            | Except.ok _ => teardown_scope_go g scope ctx rest insts₂ (invoked ++ [n])
          | none => teardown_scope_go g scope ctx rest insts₂ invoked
        | (none, _) => teardown_scope_go g scope ctx rest insts invoked
      else teardown_scope_go g scope ctx rest insts invoked

/-- `FixtureRegistry::setup_test_fixtures` (fixtures/dependency.rs). -/
def FixtureRegistry.setup_test_fixtures (r : FixtureRegistry) (ctx : TestContext) :
    List String × Except Error FixtureRegistry :=
  match r.graph.resolve_order with
  | Except.error e => ([], Except.error (Error.fixture e.message))
  | Except.ok fixture_order =>
    match setup_scope_go r.graph FixtureScope.Test ctx fixture_order r.test_instances [] with
    | (invoked, Except.error e) => (invoked, Except.error e)
    | (invoked, Except.ok insts) => (invoked, Except.ok { r with test_instances := insts })

/-- `FixtureRegistry::setup_suite_fixtures` (fixtures/dependency.rs). -/
def FixtureRegistry.setup_suite_fixtures (r : FixtureRegistry) (ctx : TestContext) :
    List String × Except Error FixtureRegistry :=
  match r.graph.resolve_order with
  | Except.error e => ([], Except.error (Error.fixture e.message))
  | Except.ok fixture_order =>
    match setup_scope_go r.graph FixtureScope.Suite ctx fixture_order r.suite_instances [] with
    | (invoked, Except.error e) => (invoked, Except.error e)
    | (invoked, Except.ok insts) => (invoked, Except.ok { r with suite_instances := insts })

/-- `FixtureRegistry::teardown_test_fixtures` (fixtures/dependency.rs):
the resolved order, reversed. -/
def FixtureRegistry.teardown_test_fixtures (r : FixtureRegistry) (ctx : TestContext) :
    List String × Except Error FixtureRegistry :=
  match r.graph.resolve_order with
  | Except.error e => ([], Except.error (Error.fixture e.message))
  | Except.ok fixture_order =>
    match teardown_scope_go r.graph FixtureScope.Test ctx fixture_order.reverse
        r.test_instances [] with
    | (invoked, Except.error e) => (invoked, Except.error e)
    | (invoked, Except.ok insts) => (invoked, Except.ok { r with test_instances := insts })

/-- `FixtureRegistry::teardown_suite_fixtures` (fixtures/dependency.rs). -/
def FixtureRegistry.teardown_suite_fixtures (r : FixtureRegistry) (ctx : TestContext) :
    List String × Except Error FixtureRegistry :=
  match r.graph.resolve_order with
  | Except.error e => ([], Except.error (Error.fixture e.message))
  | Except.ok fixture_order =>
    match teardown_scope_go r.graph FixtureScope.Suite ctx fixture_order.reverse
        r.suite_instances [] with
    | (invoked, Except.error e) => (invoked, Except.error e)
    | (invoked, Except.ok insts) => (invoked, Except.ok { r with suite_instances := insts })

/-- The fixtures a setup pass of the given scope invokes: registered, of the
scope, with a setup function. -/
def reg_setup_p (g : FixtureDependencyGraph) (scope : FixtureScope) (n : String) : Bool :=
  match g.get_fixture n with
  | some fx => decide (fx.scope = scope) && fx.setup.isSome
  | none => false

/-- The fixtures a teardown pass of the given scope invokes: registered, of
the scope, instance present, with a teardown function. -/
def reg_teardown_p (g : FixtureDependencyGraph) (scope : FixtureScope)
    (insts : List (String × Unit)) (n : String) : Bool :=
  match g.get_fixture n with
  | some fx =>
    decide (fx.scope = scope) && (assoc_find n insts).isSome && fx.teardown.isSome
  | none => false

/-- Every registered setup function succeeds in this context. -/
def setups_ok (g : FixtureDependencyGraph) (ctx : TestContext) : Bool :=
  g.fixtures.all fun p =>
    match p.2.setup with
    | some sf =>
      match sf.exec ctx with
      | Except.ok _ => true
      | Except.error _ => false
    | none => true

/-- Every registered teardown function succeeds in this context. -/
def teardowns_ok (g : FixtureDependencyGraph) (ctx : TestContext) : Bool :=
  g.fixtures.all fun p =>
    match p.2.teardown with
    | some tf =>
      match tf.exec ctx with
      | Except.ok _ => true
      | Except.error _ => false
    | none => true

/-- Every registered fixture with a setup function also has a teardown
function. -/
def setup_has_teardown (g : FixtureDependencyGraph) : Bool :=
  g.fixtures.all fun p => !p.2.setup.isSome || p.2.teardown.isSome

/-- `FixtureInstance` (fixtures/lifecycle.rs); the boxed value and creation
timestamp are elided.  `extra_refs` models whether another live `Arc`
reference exists, making `Arc::try_unwrap` fail at teardown. -/
structure FixtureInstance where
  definition : FixtureDefinition
  context : TestContext
  extra_refs : Bool

/-- `FixtureManager` (fixtures/lifecycle.rs); `HashMap`s as association
lists, accessed by key except in `teardown_by_scope`, whose drain order is
an explicit parameter (see there). -/
structure FixtureManager where
  definitions : List (String × FixtureDefinition)
  session_fixtures : List (String × FixtureInstance)
  suite_fixtures : List (String × FixtureInstance)
  test_fixtures : List (String × FixtureInstance)

def FixtureManager.new : FixtureManager :=
  { definitions := [], session_fixtures := [], suite_fixtures := [], test_fixtures := [] }

def FixtureManager.register (m : FixtureManager) (definition : FixtureDefinition) :
    FixtureManager :=
  { m with definitions := im_insert definition.name definition m.definitions }

/-- `FixtureManager::get_fixture` (fixtures/lifecycle.rs): test and
invocation scope share one table. -/
def FixtureManager.get_fixture (m : FixtureManager) (name : String)
    (scope : FixtureScope) : Option FixtureInstance :=
  match scope with
  | FixtureScope.Session => assoc_find name m.session_fixtures
  | FixtureScope.Suite => assoc_find name m.suite_fixtures
  | FixtureScope.Test => assoc_find name m.test_fixtures
  | FixtureScope.Invocation => assoc_find name m.test_fixtures

/-- Store a fresh instance in the table of its declared scope.  The `Arc`
returned to the caller of `setup_fixture` is assumed dropped, so the stored
reference is unique (`extra_refs := false`). -/
def FixtureManager.store (m : FixtureManager) (name : String)
    (definition : FixtureDefinition) (ctx : TestContext) : FixtureManager :=
  let inst : FixtureInstance :=
    { definition := definition, context := ctx, extra_refs := false }
  match definition.scope with
  | FixtureScope.Session =>
    { m with session_fixtures := im_insert name inst m.session_fixtures }
  | FixtureScope.Suite =>
    { m with suite_fixtures := im_insert name inst m.suite_fixtures }
  | FixtureScope.Test =>
    { m with test_fixtures := im_insert name inst m.test_fixtures }
  | FixtureScope.Invocation =>
    { m with test_fixtures := im_insert name inst m.test_fixtures }

/-- The dependency loop of `FixtureManager::setup_fixture`: materialize each
dependency not already instantiated in its scope, through the supplied
recursive setup callback. -/
def manager_setup_deps
    (setup : FixtureManager → String → TestContext →
      List String × Except Error FixtureManager)
    (scope : FixtureScope) (ctx : TestContext) :
    List String → FixtureManager → List String →
    List String × Except Error FixtureManager
  | [], m, invoked => (invoked, Except.ok m)
  | d :: rest, m, invoked =>
    if (m.get_fixture d scope).isSome then
      manager_setup_deps setup scope ctx rest m invoked
    else
      match setup m d ctx with
      | (inv₂, Except.error e) => (invoked ++ inv₂, Except.error e)
      | (inv₂, Except.ok m₂) =>
        manager_setup_deps setup scope ctx rest m₂ (invoked ++ inv₂)

/-- `FixtureManager::setup_fixture` (fixtures/lifecycle.rs).  The Rust
recursion is unbounded (a dependency cycle diverges); `fuel` makes it
structural.  The returned name list records the setup-function invocations
performed. -/
def FixtureManager.setup_fixture :
    Nat → FixtureManager → String → TestContext →
    List String × Except Error FixtureManager
  | 0, _, _, _ => ([], Except.error (Error.fixture "recursion limit"))
  | fuel + 1, m, name, ctx =>
    match assoc_find name m.definitions with
    | none =>
      ([], Except.error (Error.fixture ("Fixture " ++ sq ++ name ++ sq ++ " not found")))
    | some definition =>
      match manager_setup_deps (fun m₂ d ctx₂ => FixtureManager.setup_fixture fuel m₂ d ctx₂)
          definition.scope ctx definition.dependencies m [] with
      | (inv, Except.error e) => (inv, Except.error e)
      | (inv, Except.ok m₂) =>
        match definition.setup with
        | some setup_fn =>
          match setup_fn.exec ctx with
          | Except.error e => (inv ++ [name], Except.error e)
          | Except.ok _ => (inv ++ [name], Except.ok (m₂.store name definition ctx))
        | none => (inv, Except.ok (m₂.store name definition ctx))

/-- The teardown loop of `teardown_by_scope`: for each drained instance
whose ownership is unique, run its teardown function (`?`-propagating
failure). -/
def manager_teardown_go :
    List (String × FixtureInstance) → List String → List String × Except Error Unit
  | [], invoked => (invoked, Except.ok ())
  | (n, inst) :: rest, invoked =>
    if inst.extra_refs then manager_teardown_go rest invoked
    else
      match inst.definition.teardown with
      | some teardown_fn =>
        match teardown_fn.exec inst.context with
        | Except.error e => (invoked ++ [n], Except.error e)
        | Except.ok _ => manager_teardown_go rest (invoked ++ [n])
      | none => manager_teardown_go rest invoked

/-- `FixtureManager::teardown_by_scope` (fixtures/lifecycle.rs).
`HashMap::drain` yields every entry of the scope's table in an order the
`HashMap` contract leaves unspecified; `drain_order` supplies that
enumeration (any permutation of the table's keys is a possible behavior of
the Rust code).  The returned name list records the teardown invocations
performed. -/
def FixtureManager.teardown_by_scope (m : FixtureManager) (scope : FixtureScope)
    (drain_order : List String) : List String × Except Error FixtureManager :=
  let table :=
    match scope with
    | FixtureScope.Session => m.session_fixtures
    | FixtureScope.Suite => m.suite_fixtures
    | FixtureScope.Test => m.test_fixtures
    | FixtureScope.Invocation => m.test_fixtures
  let entries := drain_order.filterMap fun n => (assoc_find n table).map fun i => (n, i)
  let m₂ :=
    match scope with
    | FixtureScope.Session => { m with session_fixtures := [] }
    | FixtureScope.Suite => { m with suite_fixtures := [] }
    | FixtureScope.Test => { m with test_fixtures := [] }
    | FixtureScope.Invocation => { m with test_fixtures := [] }
  match manager_teardown_go entries [] with
  | (invoked, Except.error e) => (invoked, Except.error e)
  | (invoked, Except.ok _) => (invoked, Except.ok m₂)

/-- A session-scoped fixture with trivially succeeding setup and teardown. -/
def c5_sfix (n : String) : FixtureDefinition :=
  ((FixtureDefinition.new n FixtureScope.Session).with_setup (n ++ "_setup")
    (fun _ => Except.ok ())).with_teardown (n ++ "_teardown") (fun _ => Except.ok ())

def c5_ctx : TestContext := TestContext.new (TestMetadata.new "ctx")

/-- A test-scoped fixture with declared dependencies and trivially
succeeding setup and teardown. -/
def c5_tfix (n : String) (deps : List String) : FixtureDefinition :=
  (((FixtureDefinition.new n FixtureScope.Test).with_dependencies deps).with_setup
    (n ++ "_setup") (fun _ => Except.ok ())).with_teardown (n ++ "_teardown")
    (fun _ => Except.ok ())

/-- A concrete registry: test fixture `B` depending on test fixture `A`. -/
def c5_reg : FixtureRegistry :=
  (FixtureRegistry.new.register_fixture (c5_tfix "A" [])).register_fixture
    (c5_tfix "B" ["A"])

def c5_mgr0 : FixtureManager :=
  (FixtureManager.new.register (c5_sfix "a")).register (c5_sfix "b")

/-- Set up fixture `a` then fixture `b`, collecting the setup invocation
sequence. -/
def c5_after_setups : List String × Except Error FixtureManager :=
  match FixtureManager.setup_fixture 2 c5_mgr0 "a" c5_ctx with
  | (inv₁, Except.ok m₁) =>
    match FixtureManager.setup_fixture 2 m₁ "b" c5_ctx with
    | (inv₂, Except.ok m₂) => (inv₁ ++ inv₂, Except.ok m₂)
    | (inv₂, Except.error e) => (inv₁ ++ inv₂, Except.error e)
  | other => other

/-- The manager state after both setups (total extractor). -/
def c5_m2 : FixtureManager :=
  match c5_after_setups.2 with
  | Except.ok m => m
  | Except.error _ => FixtureManager.new

/-- `HookType` (internal/hook.rs). -/
inductive HookType
  | BeforeAll
  | AfterAll
  | BeforeEach
  | AfterEach
  | BeforeSetup
  | AfterTeardown
deriving DecidableEq, Repr

/-- `Display` for `HookType` (internal/hook.rs). -/
def HookType.to_string : HookType → String
  | .BeforeAll => "before_all"
  | .AfterAll => "after_all"
  | .BeforeEach => "before_each"
  | .AfterEach => "after_each"
  | .BeforeSetup => "before_setup"
  | .AfterTeardown => "after_teardown"

/-- `HookFn` (internal/hook.rs): a named hook callback.  The function
pointer's behavior is the Lean function itself. -/
structure HookFn where
  name : String
  function : TestContext → Except Error Unit

def HookFn.new (name : String) (function : TestContext → Except Error Unit) : HookFn :=
  { name := name, function := function }

def HookFn.execute (h : HookFn) (context : TestContext) : Except Error Unit :=
  h.function context

/-- `Hook` (internal/hook.rs). -/
structure Hook where
  hook_type : HookType
  function : HookFn
  name : String
  required : Bool

def Hook.new (hook_type : HookType) (name : String)
    (function : TestContext → Except Error Unit) : Hook :=
  { hook_type := hook_type, function := HookFn.new name function, name := name,
    required := true }

def Hook.execute (h : Hook) (context : TestContext) : Except Error Unit :=
  h.function.execute context

/-- `Hooks` (internal/hook.rs). -/
structure Hooks where
  before_all : List Hook
  after_all : List Hook
  before_each : List Hook
  after_each : List Hook
  before_setup : List Hook
  after_teardown : List Hook

def Hooks.new : Hooks :=
  { before_all := [], after_all := [], before_each := [], after_each := [],
    before_setup := [], after_teardown := [] }

/-- `Hooks::get_hooks` (internal/hook.rs). -/
def Hooks.get_hooks (h : Hooks) : HookType → List Hook
  | .BeforeAll => h.before_all
  | .AfterAll => h.after_all
  | .BeforeEach => h.before_each
  | .AfterEach => h.after_each
  | .BeforeSetup => h.before_setup
  | .AfterTeardown => h.after_teardown

/-- The loop body of `Hooks::execute` (internal/hook.rs): run each hook in
order; the first failure is wrapped into a hook error and stops the loop. -/
def hooks_run (hook_type : HookType) (context : TestContext) :
    List Hook → Except Error Unit
  | [] => Except.ok ()
  | hook :: rest =>
    match hook.execute context with
    | Except.error e =>
      Except.error (Error.hook hook_type.to_string
        ("Hook " ++ sq ++ hook.name ++ sq ++ " failed: " ++ e.display))
    | Except.ok _ => hooks_run hook_type context rest

/-- `Hooks::execute` (internal/hook.rs). -/
def Hooks.execute (h : Hooks) (hook_type : HookType) (context : TestContext) :
    Except Error Unit :=
  hooks_run hook_type context (h.get_hooks hook_type)

/-- Instrumented twin of `hooks_run` that also records which hooks had their
callback invoked, making short-circuiting observable. -/
def hooks_run_trace (hook_type : HookType) (context : TestContext) :
    List Hook → Except Error Unit × List String
  | [] => (Except.ok (), [])
  | hook :: rest =>
    match hook.execute context with
    | Except.error e =>
      (Except.error (Error.hook hook_type.to_string
        ("Hook " ++ sq ++ hook.name ++ sq ++ " failed: " ++ e.display)), [hook.name])
    | Except.ok _ =>
      let t := hooks_run_trace hook_type context rest
      (t.1, hook.name :: t.2)

def Hooks.execute_trace (h : Hooks) (hook_type : HookType) (context : TestContext) :
    Except Error Unit × List String :=
  hooks_run_trace hook_type context (h.get_hooks hook_type)

/-- Two hooks that agree on everything except possibly `required`. -/
def same_hook_mod_required (a b : Hook) : Prop :=
  a.hook_type = b.hook_type ∧ a.name = b.name ∧ a.function = b.function

/-- A concrete three-hook table whose middle hook fails; `r` sets the middle
hook's `required` flag. -/
def hooks_table_required (r : Bool) : Hooks :=
  { Hooks.new with after_each :=
    [{ hook_type := HookType.AfterEach,
       function := HookFn.new "h1" (fun _ => Except.ok ()), name := "h1",
       required := true },
     { hook_type := HookType.AfterEach,
       function := HookFn.new "h2" (fun _ => Except.error (Error.generic "boom")),
       name := "h2", required := r },
     { hook_type := HookType.AfterEach,
       function := HookFn.new "h3" (fun _ => Except.ok ()), name := "h3",
       required := true }] }

/-- `SuiteHooks` (suite.rs). -/
structure SuiteHooks where
  before_all : List HookFn
  after_all : List HookFn
  before_each : List HookFn
  after_each : List HookFn

def SuiteHooks.new : SuiteHooks :=
  { before_all := [], after_all := [], before_each := [], after_each := [] }

/-- `SuiteHooks::execute_hooks` (suite.rs): run hooks in order, mapping the
first failure into a hook error (note the message differs from
`Hooks::execute`). -/
def SuiteHooks.execute_hooks (context : TestContext) (hook_type : String) :
    List HookFn → Except Error Unit
  | [] => Except.ok ()
  | hook :: rest =>
    match hook.execute context with
    | Except.error e =>
      Except.error (Error.hook hook_type
        ("Hook " ++ sq ++ hook.name ++ sq ++ " execution failed: " ++ e.display))
    | Except.ok _ => SuiteHooks.execute_hooks context hook_type rest

/-- The per-test body of `TestSuite::execute` (suite.rs, the loop over
runnable tests): test-fixture setup, `before_each`, the test body,
`after_each` (overwriting a passed result on hook failure), fixture teardown
(logged, not propagated), and appending to the suite result.  Fixture
outcomes and the test body's result are oracle parameters standing for the
corresponding effectful calls. -/
def execute_test_step (fixtures_setup : Except Error Unit) (hooks : SuiteHooks)
    (test_context : TestContext) (test_name : String) (test_meta : TestMetadata)
    (test_execute : Option TestResult) (fixtures_teardown : Except Error Unit)
    (result : SuiteResult) : SuiteResult :=
  match fixtures_setup with
  | Except.error e =>
    result.add_test_result
      ((TestResult.new test_name test_meta).finish TestStatus.Failed (some e))
  | Except.ok _ =>
    match SuiteHooks.execute_hooks test_context "before_each" hooks.before_each with
    | Except.error e =>
      -- the fixture teardown attempted here has its result discarded (`let _ =`)
      result.add_test_result
        ((TestResult.new test_name test_meta).finish TestStatus.Failed (some e))
    | Except.ok _ =>
      let test_result :=
        match test_execute with
        | some r => r
        | none =>
          (TestResult.new test_name test_meta).finish TestStatus.Failed
            (some (Error.generic "Test not found"))
      let test_result :=
        match SuiteHooks.execute_hooks test_context "after_each" hooks.after_each with
        | Except.error e =>
          if test_result.passed then test_result.finish TestStatus.Failed (some e)
          else test_result
        | Except.ok _ => test_result
      -- a fixture teardown failure is logged, never propagated
      match fixtures_teardown with
      | _ => result.add_test_result test_result

/-- The single-quote character. -/
def sq_char : Char := Char.ofNat 39

/-- `str::trim`: strip whitespace from both ends (structural, so that the
kernel can evaluate concrete parses). -/
def trim_chars (cs : List Char) : List Char :=
  ((cs.dropWhile Char.isWhitespace).reverse.dropWhile Char.isWhitespace).reverse

/-- nom `take_until`: consume up to (not including) the first occurrence of
the pattern; fail when the pattern never occurs.  Returns the consumed part
and the remainder (which still starts with the pattern). -/
def take_until (pat : List Char) : List Char → Option (List Char × List Char)
  | [] => if starts_with pat [] then some ([], []) else none
  | c :: cs =>
    if starts_with pat (c :: cs) then some ([], c :: cs)
    else
      match take_until pat cs with
      | some (pre, rest) => some (c :: pre, rest)
      | none => none

/-- nom `take_while1`: one or more characters satisfying the predicate. -/
def take_while1 (p : Char → Bool) (cs : List Char) : Option (List Char × List Char) :=
  let taken := cs.takeWhile p
  if taken.isEmpty then none else some (taken, cs.drop taken.length)

/-- nom `digit1`. -/
def digit1 (cs : List Char) : Option (List Char × List Char) :=
  take_while1 Char.isDigit cs

/-- `str::parse::<u32>` on a digit run (always succeeds on `digit1` output). -/
def digits_to_nat (ds : List Char) : Nat :=
  ds.foldl (fun acc c => 10 * acc + (c.toNat - 48)) 0

namespace misc

/-- `TestOutputLine` (types.rs): the normalized line events consumed by the
tracker in misc.rs, with a combined `Panic` variant. -/
inductive TestOutputLine
  | TestStart (name : String)
  | TestResult (name : String) (status : TestStatus) (duration_ms : Option Rat)
  | SuiteStart (count : Nat)
  | Panic (message : String) (test : String) (location : Option SourceLocation)
deriving DecidableEq, Repr

/-- `TestState` (types.rs); `Instant` becomes a `Nat` timestamp. -/
inductive TestState
  | NotStarted
  | Running (started_at : Nat)
  | Completed (duration_ms : Rat) (status : TestStatus)
deriving DecidableEq, Repr

/-- `ProcessOutput` (types.rs): the lifecycle event stream, with a source
location on `TestFailed`. -/
inductive ProcessOutput
  | TestStarted (name : String) (suite : String)
  | TestPassed (result : TestResult) (duration_ms : Rat)
  | TestFailed (result : TestResult) (duration_ms : Rat) (error : String)
      (location : Option SourceLocation)
  | TestSkipped (result : TestResult)
  | SuiteStarted (name : String) (test_count : Nat)
  | SuiteCompleted (name : String)
  | Done
deriving DecidableEq, Repr

/-- `StandardLineParser::create_test_result` (misc.rs); the random uuid is
elided. -/
def StandardLineParser.create_test_result (name : String) (status : TestStatus) :
    TestResult :=
  let name := format_mod_name name
  let metadata := TestMetadata.new name
  let test_result := TestResult.new name metadata
  match status with
  | TestStatus.Passed => test_result.finish TestStatus.Passed none
  | TestStatus.Failed =>
    test_result.finish TestStatus.Failed (some (Error.test_execution "Test failed"))
  | _ => test_result.finish TestStatus.Skipped none

/-- `TestRunState` (misc.rs); the two `HashMap`s become association lists —
every access to them in misc.rs is keyed, so their iteration order is never
observed. -/
structure TestRunState where
  tests : List (String × TestState)
  pending_errors : List (String × ErrorInfo)
  current_suite : Option String
deriving DecidableEq, Repr

def TestRunState.new : TestRunState :=
  { tests := [], pending_errors := [], current_suite := none }

/-- `TestRunState::handle_line` (misc.rs).  `now` stands for `Instant::now()`
at the moment the line is handled; `started_at.elapsed()` becomes
`now - started_at`.  Note the `TestResult` arm binds the line's
`duration_ms` field with `..` and never reads it. -/
def TestRunState.handle_line (s : TestRunState) (now : Nat) :
    TestOutputLine → TestRunState × Option ProcessOutput
  | TestOutputLine.TestStart name =>
    ({ s with tests := im_insert name (TestState.Running now) s.tests },
      some (ProcessOutput.TestStarted name (s.current_suite.getD "")))
  | TestOutputLine.TestResult name status _ =>
    match assoc_find name s.tests with
    | some (TestState.Running started_at) =>
      let duration_ms : Rat := ((now - started_at : Nat) : Rat)
      let removed := assoc_remove name s.pending_errors
      let error := removed.1
      let s := { s with
        tests := im_insert name (TestState.Completed duration_ms status) s.tests,
        pending_errors := removed.2 }
      match status with
      | TestStatus.Failed =>
        (s, some (ProcessOutput.TestFailed
          (StandardLineParser.create_test_result name TestStatus.Failed) duration_ms
          ((error.map ErrorInfo.to_string).getD "")
          (error.bind ErrorInfo.location)))
      | TestStatus.Passed =>
        (s, some (ProcessOutput.TestPassed
          (StandardLineParser.create_test_result name TestStatus.Passed) duration_ms))
      | _ =>
        (s, some (ProcessOutput.TestSkipped
          (StandardLineParser.create_test_result name status)))
    | _ => (s, none)
  | TestOutputLine.Panic message test location =>
    let entry := ((assoc_find test s.pending_errors).getD ErrorInfo.new).set_location
      ((location.map SourceLocation.file).getD "")
      ((location.map SourceLocation.line).getD 0)
      ((location.map SourceLocation.column).getD 0)
    let entry := entry.set_message message
    let pe :=
      match assoc_find test s.pending_errors with
      | some _ => assoc_update test entry s.pending_errors
      | none => s.pending_errors ++ [(test, entry)]
    ({ s with pending_errors := pe }, none)
  | TestOutputLine.SuiteStart _ => (s, none)

/-- The loop body of `TestRunState::finalize_pending_errors` (misc.rs):
for each collected result, pop its pending error and attach it only when the
result has no error yet. -/
def finalize_go : List (String × ErrorInfo) → List TestResult →
    List (String × ErrorInfo) × List TestResult
  | pe, [] => (pe, [])
  | pe, r :: rest =>
    let removed := assoc_remove r.name pe
    let r₂ :=
      match removed.1 with
      | some error_info =>
        if r.error.isNone then
          { r with error := some (Error.test_execution error_info.to_string) }
        else r
      | none => r
    let next := finalize_go removed.2 rest
    (next.1, r₂ :: next.2)

/-- `TestRunState::finalize_pending_errors` (misc.rs). -/
def TestRunState.finalize_pending_errors (s : TestRunState)
    (test_results : List TestResult) : TestRunState × List TestResult :=
  let out := finalize_go s.pending_errors test_results
  ({ s with pending_errors := out.1 }, out.2)

/-- `StandardLineParser::parse_test_start` (misc.rs). -/
def StandardLineParser.parse_test_start (input : List Char) :
    Option (List Char × TestOutputLine) :=
  match drop_pat "test ".toList input with
  | none => none
  | some input =>
    match take_while1 (fun c => !c.isWhitespace) input with
    | none => none
    | some (name, input) => some (input, TestOutputLine.TestStart (String.mk name))

/-- `StandardLineParser::parse_suite_start` (misc.rs). -/
def StandardLineParser.parse_suite_start (input : List Char) :
    Option (List Char × TestOutputLine) :=
  match drop_pat "running ".toList input with
  | none => none
  | some input =>
    match digit1 input with
    | none => none
    | some (count_str, input) =>
      let count := digits_to_nat count_str
      match drop_pat " test".toList input with
      | none => none
      | some input => some (input, TestOutputLine.SuiteStart count)

/-- `StandardLineParser::parse_test_result` (misc.rs). -/
def StandardLineParser.parse_test_result (input : List Char) :
    Option (List Char × TestOutputLine) :=
  match drop_pat "test ".toList input with
  | none => none
  | some input =>
    match take_until " ".toList input with
    | none => none
    | some (name, input) =>
      match drop_pat " ... ".toList input with
      | none => none
      | some input =>
        let status : Option (List Char × TestStatus) :=
          match drop_pat "ok".toList input with
          | some rest => some (rest, TestStatus.Passed)
          | none =>
            match drop_pat "FAILED".toList input with
            | some rest => some (rest, TestStatus.Failed)
            | none =>
              match drop_pat "ignored".toList input with
              | some rest => some (rest, TestStatus.Skipped)
              | none => none
        match status with
        | none => none
        | some (input, status) =>
          some (input, TestOutputLine.TestResult (String.mk name) status none)

/-- `StandardLineParser::parse_test_output` (misc.rs): `alt` over result,
start, suite-start. -/
def StandardLineParser.parse_test_output (input : List Char) :
    Option (List Char × TestOutputLine) :=
  match StandardLineParser.parse_test_result input with
  | some r => some r
  | none =>
    match StandardLineParser.parse_test_start input with
    | some r => some r
    | none => StandardLineParser.parse_suite_start input

/-- `StandardLineParser::parse_panic` (misc.rs). -/
def StandardLineParser.parse_panic (input : List Char) :
    Option (List Char × TestOutputLine) :=
  match drop_pat ("thread " ++ sq).toList input with
  | none => none
  | some input =>
    match take_until [sq_char] input with
    | none => none
    | some (test_name, input) =>
      match drop_pat (sq ++ " panicked at ").toList input with
      | none => none
      | some input =>
        match take_until ":".toList input with
        | none => none
        | some (file, input) =>
          match drop_pat ":".toList input with
          | none => none
          | some input =>
            match digit1 input with
            | none => none
            | some (line_str, input) =>
              let line := digits_to_nat line_str
              match drop_pat ":".toList input with
              | none => none
              | some input =>
                match digit1 input with
                | none => none
                | some (column_str, input) =>
                  let column := digits_to_nat column_str
                  match drop_pat ":\n".toList input with
                  | none => none
                  | some err_message =>
                    let full_err := String.mk (trim_chars err_message)
                    some ([], TestOutputLine.Panic full_err (String.mk test_name)
                      (some { file := String.mk file, line := line, column := column }))

/-- `StandardLineParser::parse_error_output` (misc.rs); the nom error display
string is opaque here, only the failure itself is modelled. -/
def StandardLineParser.parse_error_output (input : List Char) :
    Except Error TestOutputLine :=
  match StandardLineParser.parse_panic input with
  | some (_, result) => Except.ok result
  | none => Except.error (Error.test_execution "parse error")

end misc

/-- A decoded JSON value; `serde_json` (the external JSON decoder) produces
such a value from one line of text. -/
inductive Json
  | null
  | bool (b : Bool)
  | num (q : Rat)
  | str (s : String)
  | arr (elems : List Json)
  | obj (fields : List (String × Json))

/-- `serde_json::Value::get` on an object. -/
def Json.get (j : Json) (k : String) : Option Json :=
  match j with
  | Json.obj fields => assoc_find k fields
  | _ => none

/-- `Value::as_str`. -/
def Json.as_str : Json → Option String
  | Json.str s => some s
  | _ => none

/-- `Value::as_f64`. -/
def Json.as_f64 : Json → Option Rat
  | Json.num q => some q
  | _ => none

/-- `Value::as_u64`. -/
def Json.as_u64 : Json → Option Nat
  | Json.num q => if q.den = 1 && 0 ≤ q.num then some q.num.toNat else none
  | _ => none

namespace misc

/-- `JsonLineParser::parse_test_output` (misc.rs), from the decoded value. -/
def JsonLineParser.parse_test_output (json : Json) : Except Error (Option TestOutputLine) :=
  let event_type := (json.get "type").bind Json.as_str
  let event := (json.get "event").bind Json.as_str
  match event_type, event with
  | some "suite", some "started" =>
    let test_count := ((json.get "test_count").bind Json.as_u64).getD 0
    Except.ok (some (TestOutputLine.SuiteStart test_count))
  | some "test", some "started" =>
    match (json.get "name").bind Json.as_str with
    | some name => Except.ok (some (TestOutputLine.TestStart name))
    | none => Except.ok none
  | some "test", some "ok" =>
    match (json.get "name").bind Json.as_str with
    | some name =>
      let duration_ms := (json.get "exec_time").bind Json.as_f64
      Except.ok (some (TestOutputLine.TestResult name TestStatus.Passed duration_ms))
    | none => Except.ok none
  | some "test", some "failed" =>
    match (json.get "name").bind Json.as_str with
    | some name =>
      let duration_ms := (json.get "exec_time").bind Json.as_f64
      Except.ok (some (TestOutputLine.TestResult name TestStatus.Failed duration_ms))
    | none => Except.ok none
  | some "test", some "ignored" =>
    match (json.get "name").bind Json.as_str with
    | some name =>
      Except.ok (some (TestOutputLine.TestResult name TestStatus.Skipped none))
    | none => Except.ok none
  | some "suite", some "failed" => Except.ok none
  | some "suite", some "ok" => Except.ok none
  | _, _ => Except.ok none

/-- The C1 scenario's stdout result line. -/
def c1_failed_line : List Char := "test n ... FAILED".toList

/-- The C1 scenario's stderr panic group (two lines joined by
`read_panic_group`). -/
def c1_panic_group : String :=
  "thread " ++ sq ++ "n" ++ sq ++ " panicked at src/lib.rs:10:5:\nassertion failed"

/-- The C1 panic line event as parsed from the panic group. -/
def c1_panic_event : TestOutputLine :=
  TestOutputLine.Panic "assertion failed" "n"
    (some { file := "src/lib.rs", line := 10, column := 5 })

/-- C1 trace, result line processed before the panic group: test `n` started
at time `0`, the `FAILED` result line handled at time `5`. -/
def c1_after_result : TestRunState × Option ProcessOutput :=
  ((TestRunState.new.handle_line 0 (TestOutputLine.TestStart "n")).1).handle_line 5
    (TestOutputLine.TestResult "n" TestStatus.Failed none)

/-- C1 trace, continued: the panic group is handled afterwards, then
`finalize_pending_errors` runs over the collected results at process exit. -/
def c1_final_results : List TestResult :=
  ((c1_after_result.1.handle_line 6 c1_panic_event).1.finalize_pending_errors
    [StandardLineParser.create_test_result "n" TestStatus.Failed]).2

/-- The C3 structured line, decoded. -/
def c3_json : Json :=
  Json.obj [("type", Json.str "test"), ("event", Json.str "ok"),
    ("name", Json.str "x"), ("exec_time", Json.num (1 / 100))]

end misc

namespace cargo

/-- `TestOutputLine` (runners/cargo/types.rs): the cargo runner's line
events, with split `PanicLocation`/`PanicMessage` variants. -/
inductive TestOutputLine
  | TestStart (name : String)
  | TestResult (name : String) (status : TestStatus) (duration_ms : Option Rat)
  | SuiteStart (count : Nat)
  | PanicLocation (test : String) (file : String) (line : Nat) (column : Nat)
  | PanicMessage (message : String)
deriving DecidableEq, Repr

/-- `TestState` (runners/cargo/types.rs). -/
inductive TestState
  | NotStarted
  | Running (started_at : Nat)
  | Completed (duration_ms : Rat) (status : TestStatus)
deriving DecidableEq, Repr

/-- `ProcessOutput` (runners/cargo/mod.rs): no location field on
`TestFailed`, and the extra `Progress`/`Error` variants. -/
inductive ProcessOutput
  | TestStarted (name : String) (suite : String)
  | TestPassed (result : TestResult) (duration_ms : Rat)
  | TestFailed (result : TestResult) (duration_ms : Rat) (error : String)
  | TestSkipped (result : TestResult)
  | SuiteStarted (name : String) (test_count : Nat)
  | SuiteCompleted (name : String)
  | Progress (result : TestResult)
  | Error (result : TestResult)
  | Done
deriving DecidableEq, Repr

/-- `create_test_result` (runners/cargo/utils.rs); the random uuid is
elided. -/
def create_test_result (name : String) (status : TestStatus) : TestResult :=
  let name := format_mod_name name
  let metadata := TestMetadata.new name
  let test_result := TestResult.new name metadata
  match status with
  | TestStatus.Passed => test_result.finish TestStatus.Passed none
  | TestStatus.Failed =>
    test_result.finish TestStatus.Failed (some (Error.test_execution "Test failed"))
  | _ => test_result.finish TestStatus.Skipped none

/-- `TestRunState` (runners/cargo/types.rs).  The `pending_errors` `HashMap`
becomes an association list in insertion order; its iteration order in Rust
is unspecified, and the theorems below only ever observe it through keyed
access or on states with at most one entry, where all iteration orders
agree. -/
structure TestRunState where
  tests : List (String × TestState)
  pending_errors : List (String × ErrorInfo)
  current_suite : Option String
deriving DecidableEq, Repr

def TestRunState.new : TestRunState :=
  { tests := [], pending_errors := [], current_suite := none }

/-- `pending_errors.iter_mut().last()` followed by `set_message`: apply the
message to the final entry of the table, if any. -/
def set_last_message (message : String) (pe : List (String × ErrorInfo)) :
    List (String × ErrorInfo) :=
  match pe.getLast? with
  | some last => pe.dropLast ++ [(last.1, last.2.set_message message)]
  | none => pe

/-- `TestRunState::handle_line` (runners/cargo/types.rs).  `now` stands for
`Instant::now()` at the moment the line is handled. -/
def TestRunState.handle_line (s : TestRunState) (now : Nat) :
    TestOutputLine → TestRunState × Option ProcessOutput
  | TestOutputLine.TestStart name =>
    ({ s with tests := im_insert name (TestState.Running now) s.tests },
      some (ProcessOutput.TestStarted name (s.current_suite.getD "")))
  | TestOutputLine.TestResult name status _ =>
    match assoc_find name s.tests with
    | some (TestState.Running started_at) =>
      let duration_ms : Rat := ((now - started_at : Nat) : Rat)
      let removed := assoc_remove name s.pending_errors
      let error := removed.1
      let s := { s with
        tests := im_insert name (TestState.Completed duration_ms status) s.tests,
        pending_errors := removed.2 }
      match status with
      | TestStatus.Failed =>
        (s, some (ProcessOutput.TestFailed (create_test_result name TestStatus.Failed)
          duration_ms ((error.map ErrorInfo.format_error).getD "")))
      | TestStatus.Passed =>
        (s, some (ProcessOutput.TestPassed (create_test_result name TestStatus.Passed)
          duration_ms))
      | _ =>
        (s, some (ProcessOutput.TestSkipped (create_test_result name status)))
    | _ => (s, none)
  | TestOutputLine.PanicLocation test file line column =>
    let pe :=
      match assoc_find test s.pending_errors with
      | some entry => assoc_update test (entry.set_location file line column) s.pending_errors
      | none => s.pending_errors ++ [(test, ErrorInfo.new.set_location file line column)]
    ({ s with pending_errors := pe }, none)
  | TestOutputLine.PanicMessage message =>
    ({ s with pending_errors := set_last_message message s.pending_errors }, none)
  | TestOutputLine.SuiteStart _ => (s, none)

/-- The loop body of `TestRunState::finalize_pending_errors`
(runners/cargo/types.rs): identical to the misc.rs version except that the
attached text is `format_error`. -/
def finalize_go : List (String × ErrorInfo) → List TestResult →
    List (String × ErrorInfo) × List TestResult
  | pe, [] => (pe, [])
  | pe, r :: rest =>
    let removed := assoc_remove r.name pe
    let r₂ :=
      match removed.1 with
      | some error_info =>
        if r.error.isNone then
          { r with error := some (Error.test_execution error_info.format_error) }
        else r
      | none => r
    let next := finalize_go removed.2 rest
    (next.1, r₂ :: next.2)

/-- `TestRunState::finalize_pending_errors` (runners/cargo/types.rs). -/
def TestRunState.finalize_pending_errors (s : TestRunState)
    (test_results : List TestResult) : TestRunState × List TestResult :=
  let out := finalize_go s.pending_errors test_results
  ({ s with pending_errors := out.1 }, out.2)

/-- The C2 counterexample trace: a `PanicMessage` handled while no pending
entry exists, followed by the `PanicLocation` for test `t`. -/
def c2_message_first : TestRunState :=
  ((TestRunState.new.handle_line 0 (TestOutputLine.PanicMessage "assertion failed")).1.handle_line
    0 (TestOutputLine.PanicLocation "t" "src/lib.rs" 10 5)).1

end cargo

end Sheila

namespace Sheila

/-! ## Theorems -/

/-- `Hooks.execute` is the first component of its instrumented twin. -/
theorem hooks_run_trace_fst (hook_type : HookType) (context : TestContext)
    (hooks : List Hook) :
    (hooks_run_trace hook_type context hooks).1 = hooks_run hook_type context hooks := by
  induction hooks with
  | nil => rfl
  | cons hook rest ih =>
    simp only [hooks_run_trace, hooks_run]
    cases hook.execute context <;> simp [ih]

/-- C6: `total_tests = passed_tests + failed_tests + skipped_tests` holds in
every `SuiteResult` built by `add_test_result` calls from `new` (over any
test statuses), and the same equality over the run-level test counters holds
after every `add_suite_result` call on a `RunResult` whose added suites
satisfy the suite-level equality.  Since the statement quantifies over all
call sequences, it in particular holds after every prefix, i.e. after every
call. -/
theorem C6_counter_invariant (name : String) (results : List TestResult)
    (config : RunnerConfig) (suites : List SuiteResult)
    (hsuites : ∀ s ∈ suites, s.total_tests = s.passed_tests + s.failed_tests + s.skipped_tests) :
    (results.foldl SuiteResult.add_test_result (SuiteResult.new name)).total_tests =
      (results.foldl SuiteResult.add_test_result (SuiteResult.new name)).passed_tests +
      (results.foldl SuiteResult.add_test_result (SuiteResult.new name)).failed_tests +
      (results.foldl SuiteResult.add_test_result (SuiteResult.new name)).skipped_tests ∧
    (suites.foldl RunResult.add_suite_result (RunResult.new config)).total_tests =
      (suites.foldl RunResult.add_suite_result (RunResult.new config)).passed_tests +
      (suites.foldl RunResult.add_suite_result (RunResult.new config)).failed_tests +
      (suites.foldl RunResult.add_suite_result (RunResult.new config)).skipped_tests := by
  constructor
  · suffices h : ∀ (s : SuiteResult),
        s.total_tests = s.passed_tests + s.failed_tests + s.skipped_tests →
        (results.foldl SuiteResult.add_test_result s).total_tests =
          (results.foldl SuiteResult.add_test_result s).passed_tests +
          (results.foldl SuiteResult.add_test_result s).failed_tests +
          (results.foldl SuiteResult.add_test_result s).skipped_tests by
      exact h _ rfl
    induction results with
    | nil => intro s hs; simpa using hs
    | cons r rest ih =>
      intro s hs
      simp only [List.foldl_cons]
      apply ih
      cases hr : r.status <;>
        simp [SuiteResult.add_test_result, hr, hs] <;> omega
  · suffices h : ∀ (r : RunResult),
        r.total_tests = r.passed_tests + r.failed_tests + r.skipped_tests →
        (∀ s ∈ suites, s.total_tests = s.passed_tests + s.failed_tests + s.skipped_tests) →
        (suites.foldl RunResult.add_suite_result r).total_tests =
          (suites.foldl RunResult.add_suite_result r).passed_tests +
          (suites.foldl RunResult.add_suite_result r).failed_tests +
          (suites.foldl RunResult.add_suite_result r).skipped_tests by
      exact h _ rfl hsuites
    clear hsuites
    induction suites with
    | nil => intro r hr _; simpa using hr
    | cons s rest ih =>
      intro r hr hmem
      simp only [List.foldl_cons]
      apply ih
      · have hs := hmem s (by simp)
        by_cases h1 : s.all_passed <;>
          by_cases h2 : s.failed_tests > 0 || s.error.isSome <;>
          simp [RunResult.add_suite_result, h1, h2] <;> omega
      · intro t ht; exact hmem t (by simp [ht])

/-- C6 witness: the invariant at a concrete suite/run. -/
theorem C6_counter_invariant_witness :
    (∀ s ∈ [SuiteResult.new "s"], s.total_tests =
      s.passed_tests + s.failed_tests + s.skipped_tests) ∧
    (([TestResult.new "t" (TestMetadata.new "t")].foldl SuiteResult.add_test_result
        (SuiteResult.new "w")).total_tests =
      ([TestResult.new "t" (TestMetadata.new "t")].foldl SuiteResult.add_test_result
        (SuiteResult.new "w")).passed_tests +
      ([TestResult.new "t" (TestMetadata.new "t")].foldl SuiteResult.add_test_result
        (SuiteResult.new "w")).failed_tests +
      ([TestResult.new "t" (TestMetadata.new "t")].foldl SuiteResult.add_test_result
        (SuiteResult.new "w")).skipped_tests) :=
  ⟨by decide, (C6_counter_invariant "w" [TestResult.new "t" (TestMetadata.new "t")]
    { fail_fast := false } [SuiteResult.new "s"] (by decide)).1⟩

/-- C9: starting from `RunResult::new`, after any sequence of
`add_suite_result` calls `skipped_suites` is `0` and
`passed_suites + failed_suites = total_suites`: every added suite is
classified passed or failed, because the skip branch requires
`¬all_passed ∧ failed_tests = 0 ∧ error = none`, which contradicts the
definition of `all_passed`.  A suite with zero tests and no error satisfies
`all_passed` and is counted passed. -/
theorem C9_no_skipped_suites (config : RunnerConfig) (suites : List SuiteResult) :
    (suites.foldl RunResult.add_suite_result (RunResult.new config)).skipped_suites = 0 ∧
    (suites.foldl RunResult.add_suite_result (RunResult.new config)).passed_suites +
      (suites.foldl RunResult.add_suite_result (RunResult.new config)).failed_suites =
      (suites.foldl RunResult.add_suite_result (RunResult.new config)).total_suites ∧
    (∀ name, (SuiteResult.new name).all_passed = true) := by
  refine ⟨?_, ?_, fun name => by simp [SuiteResult.new, SuiteResult.all_passed]⟩ <;>
  · suffices h : ∀ (r : RunResult),
        r.skipped_suites = 0 → r.passed_suites + r.failed_suites = r.total_suites →
        (suites.foldl RunResult.add_suite_result r).skipped_suites = 0 ∧
        (suites.foldl RunResult.add_suite_result r).passed_suites +
          (suites.foldl RunResult.add_suite_result r).failed_suites =
          (suites.foldl RunResult.add_suite_result r).total_suites by
      first
      | exact (h _ rfl rfl).1
      | exact (h _ rfl rfl).2
    induction suites with
    | nil => intro r h0 h1; exact ⟨h0, h1⟩
    | cons s rest ih =>
      intro r h0 h1
      simp only [List.foldl_cons]
      apply ih
      · by_cases h2 : s.all_passed
        · simp [RunResult.add_suite_result, h2, h0]
        · have h3 : s.failed_tests > 0 || s.error.isSome := by
            simp only [SuiteResult.all_passed, Bool.and_eq_true, decide_eq_true_eq,
              Option.isNone_iff_eq_none] at h2
            rcases Nat.eq_zero_or_pos s.failed_tests with hz | hp
            · simp only [Bool.or_eq_true, decide_eq_true_eq, Option.isSome_iff_ne_none]
              right
              intro hn
              exact h2 ⟨hz, hn⟩
            · simp [hp]
          simp [RunResult.add_suite_result, h2, h3, h0]
      · by_cases h2 : s.all_passed
        · simp [RunResult.add_suite_result, h2]; omega
        · have h3 : s.failed_tests > 0 || s.error.isSome := by
            simp only [SuiteResult.all_passed, Bool.and_eq_true, decide_eq_true_eq,
              Option.isNone_iff_eq_none] at h2
            rcases Nat.eq_zero_or_pos s.failed_tests with hz | hp
            · simp only [Bool.or_eq_true, decide_eq_true_eq, Option.isSome_iff_ne_none]
              right
              intro hn
              exact h2 ⟨hz, hn⟩
            · simp [hp]
          simp [RunResult.add_suite_result, h2, h3]; omega

/-- C7: with fail-fast enabled, when the first executable's suite result does
not fully pass, `execute_tests` returns a run result containing exactly that
suite result with the run-level error set, and the remaining executables are
never processed. -/
theorem C7_fail_fast (a b c : TestExecutable) (sa : SuiteResult)
    (ob oc : Except Error SuiteResult) (config : RunnerConfig)
    (hff : config.fail_fast = true) (hfail : sa.all_passed = false) :
    (cargo.execute_tests config [(a, Except.ok sa), (b, ob), (c, oc)]).1.suite_results =
      [sa] ∧
    (cargo.execute_tests config [(a, Except.ok sa), (b, ob), (c, oc)]).1.error.isSome ∧
    (cargo.execute_tests config [(a, Except.ok sa), (b, ob), (c, oc)]).2 = [a.name] := by
  have h3 : (sa.failed_tests > 0 || sa.error.isSome) = true := by
    simp only [SuiteResult.all_passed, Bool.and_eq_true, decide_eq_true_eq,
      Option.isNone_iff_eq_none] at hfail
    rcases Nat.eq_zero_or_pos sa.failed_tests with hz | hp
    · simp only [Bool.or_eq_true, decide_eq_true_eq, Option.isSome_iff_ne_none]
      right
      intro hn
      simp [hz, hn] at hfail
    · simp [hp]
  simp [cargo.execute_tests, cargo.execute_tests_go, hfail, h3,
    RunResult.add_suite_result, RunResult.new, RunResult.finish, hff]

/-- C10: hook execution never reads the `required` flag — two hook tables
agreeing up to `required` produce identical outcomes — and the first failing
hook short-circuits the rest, wrapping its name and stage into a hook error,
required or not. -/
theorem C10_required_flag_ignored :
    (∀ (h₁ h₂ : Hooks) (hook_type : HookType) (context : TestContext),
      List.Forall₂ same_hook_mod_required (h₁.get_hooks hook_type) (h₂.get_hooks hook_type) →
      h₁.execute hook_type context = h₂.execute hook_type context) ∧
    (∀ (h : Hooks) (hook_type : HookType) (context : TestContext)
        (pre : List Hook) (hook : Hook) (post : List Hook) (e : Error),
      h.get_hooks hook_type = pre ++ hook :: post →
      (∀ h₀ ∈ pre, h₀.execute context = Except.ok ()) →
      hook.execute context = Except.error e →
      h.execute hook_type context = Except.error (Error.hook hook_type.to_string
        ("Hook " ++ sq ++ hook.name ++ sq ++ " failed: " ++ e.display)) ∧
      (h.execute_trace hook_type context).2 = pre.map Hook.name ++ [hook.name]) := by
  constructor
  · intro h₁ h₂ hook_type context hsame
    unfold Hooks.execute
    suffices h : ∀ (l₁ l₂ : List Hook), List.Forall₂ same_hook_mod_required l₁ l₂ →
        hooks_run hook_type context l₁ = hooks_run hook_type context l₂ by
      exact h _ _ hsame
    intro l₁ l₂ hsame₂
    induction hsame₂ with
    | nil => rfl
    | cons hab _ ih =>
      rcases hab with ⟨_, hname, hfn⟩
      simp only [hooks_run, Hook.execute, hfn, hname]
      cases hb : HookFn.execute _ context <;> simp [ih]
  · intro h hook_type context pre hook post e hdecomp hpre hfail
    unfold Hooks.execute Hooks.execute_trace
    rw [hdecomp]
    clear hdecomp
    induction pre with
    | nil => simp [hooks_run, hooks_run_trace, hfail]
    | cons p rest ih =>
      have hp : p.execute context = Except.ok () := hpre p (by simp)
      have hrest := ih (fun h₀ hm => hpre h₀ (by simp [hm]))
      simp [hooks_run, hooks_run_trace, hp, hrest.1, hrest.2]

/-- C10 witness: a concrete table whose middle hook fails with
`required := false`; flipping the flags does not change the outcome and the
third hook is never invoked. -/
theorem C10_required_flag_ignored_witness :
    ((hooks_table_required true).execute HookType.AfterEach
        (TestContext.new (TestMetadata.new "t")) =
      (hooks_table_required false).execute HookType.AfterEach
        (TestContext.new (TestMetadata.new "t"))) ∧
    ((hooks_table_required true).execute_trace HookType.AfterEach
        (TestContext.new (TestMetadata.new "t"))).2 = ["h1", "h2"] :=
  ⟨C10_required_flag_ignored.1 (hooks_table_required true) (hooks_table_required false)
      HookType.AfterEach (TestContext.new (TestMetadata.new "t"))
      (List.Forall₂.cons ⟨rfl, rfl, rfl⟩ (List.Forall₂.cons ⟨rfl, rfl, rfl⟩
        (List.Forall₂.cons ⟨rfl, rfl, rfl⟩ List.Forall₂.nil))),
    ((C10_required_flag_ignored.2 (hooks_table_required true)
      HookType.AfterEach (TestContext.new (TestMetadata.new "t"))
      [{ hook_type := HookType.AfterEach,
         function := HookFn.new "h1" (fun _ => Except.ok ()), name := "h1",
         required := true }]
      { hook_type := HookType.AfterEach,
        function := HookFn.new "h2" (fun _ => Except.error (Error.generic "boom")),
        name := "h2", required := true }
      [{ hook_type := HookType.AfterEach,
         function := HookFn.new "h3" (fun _ => Except.ok ()), name := "h3",
         required := true }]
      (Error.generic "boom") rfl
      (fun h₀ hm => by
        rw [List.mem_singleton] at hm
        subst hm
        rfl)
      rfl).2)⟩

/-- C8: in the per-test pipeline of the in-process suite executor, when the
`after_each` hooks fail, a passed test result is overwritten to failed with
the hook error, while an already-failed (or skipped) result is appended
unchanged. -/
theorem C8_after_each_overwrite (hooks : SuiteHooks) (context : TestContext)
    (test_name : String) (test_meta : TestMetadata) (tr : TestResult)
    (teardown : Except Error Unit) (result : SuiteResult) (e : Error)
    (hae : SuiteHooks.execute_hooks context "after_each" hooks.after_each =
      Except.error e)
    (hbe : SuiteHooks.execute_hooks context "before_each" hooks.before_each =
      Except.ok ()) :
    (tr.passed = true →
      execute_test_step (Except.ok ()) hooks context test_name test_meta (some tr)
        teardown result =
      result.add_test_result (tr.finish TestStatus.Failed (some e))) ∧
    (tr.passed = false →
      execute_test_step (Except.ok ()) hooks context test_name test_meta (some tr)
        teardown result =
      result.add_test_result tr) := by
  constructor <;> intro hp <;>
    simp [execute_test_step, hbe, hae, hp]

/-- C8 witness: concrete passed and failed results against a failing
`after_each` hook. -/
theorem C8_after_each_overwrite_witness :
    (SuiteHooks.execute_hooks (TestContext.new (TestMetadata.new "t")) "after_each"
        [HookFn.new "ae" (fun _ => Except.error (Error.generic "boom"))] =
      Except.error (Error.hook "after_each"
        ("Hook " ++ sq ++ "ae" ++ sq ++ " execution failed: " ++ "boom"))) ∧
    (((TestResult.new "t" (TestMetadata.new "t")).finish TestStatus.Passed none).passed
        = true) ∧
    (execute_test_step (Except.ok ())
        { SuiteHooks.new with
            after_each := [HookFn.new "ae" (fun _ => Except.error (Error.generic "boom"))] }
        (TestContext.new (TestMetadata.new "t")) "t" (TestMetadata.new "t")
        (some ((TestResult.new "t" (TestMetadata.new "t")).finish TestStatus.Passed none))
        (Except.ok ()) (SuiteResult.new "s") =
      (SuiteResult.new "s").add_test_result
        (((TestResult.new "t" (TestMetadata.new "t")).finish TestStatus.Passed none).finish
          TestStatus.Failed (some (Error.hook "after_each"
            ("Hook " ++ sq ++ "ae" ++ sq ++ " execution failed: " ++ "boom"))))) :=
  ⟨rfl, rfl,
    (C8_after_each_overwrite
      { SuiteHooks.new with
          after_each := [HookFn.new "ae" (fun _ => Except.error (Error.generic "boom"))] }
      (TestContext.new (TestMetadata.new "t")) "t" (TestMetadata.new "t")
      ((TestResult.new "t" (TestMetadata.new "t")).finish TestStatus.Passed none)
      (Except.ok ()) (SuiteResult.new "s")
      (Error.hook "after_each"
        ("Hook " ++ sq ++ "ae" ++ sq ++ " execution failed: " ++ "boom"))
      rfl rfl).1 rfl⟩

/-- C1: evaluating the misc.rs tracker on the claim's failing order.  The
text grammar parses the `FAILED` line and the panic group as the claim
expects, but when the result line is handled before the panic group the
emitted `TestFailed` event carries empty error text and no location, and
`finalize_pending_errors` at process exit leaves the collected result's
error as the placeholder `Test failed`: `create_test_result` pre-fills an
error for every failed result, so the `result.error.is_none()` guard never
fires and the pending panic detail (`assertion failed` at src/lib.rs:10:5)
is dropped. -/
theorem C1_panic_after_result_dropped :
    misc.StandardLineParser.parse_test_output misc.c1_failed_line =
      some ([], misc.TestOutputLine.TestResult "n" TestStatus.Failed none) ∧
    misc.StandardLineParser.parse_error_output misc.c1_panic_group.toList =
      Except.ok misc.c1_panic_event ∧
    misc.c1_after_result.2 = some (misc.ProcessOutput.TestFailed
      (misc.StandardLineParser.create_test_result "n" TestStatus.Failed) 5 "" none) ∧
    misc.c1_final_results =
      [misc.StandardLineParser.create_test_result "n" TestStatus.Failed] ∧
    (misc.StandardLineParser.create_test_result "n" TestStatus.Failed).error =
      some (Error.test_execution "Test failed") := by
  refine ⟨?_, ?_, ?_, ?_, ?_⟩ <;> first | decide | rfl

/-- C3: the structured line with `exec_time` `0.01` parses into a line event
whose `duration_ms` field holds the raw seconds value `1/100` (never scaled
to milliseconds), and the tracker ignores that field entirely: with `x`
running since time `0` and the result handled at time `5`, the emitted
`TestPassed` duration is the wall-clock `5` — identically whether the field
is present or absent — not the claimed `10`. -/
theorem C3_duration_wall_clock_not_exec_time :
    misc.JsonLineParser.parse_test_output misc.c3_json =
      Except.ok (some (misc.TestOutputLine.TestResult "x" TestStatus.Passed
        (some (1 / 100)))) ∧
    ((misc.TestRunState.new.handle_line 0 (misc.TestOutputLine.TestStart "x")).1.handle_line
        5 (misc.TestOutputLine.TestResult "x" TestStatus.Passed (some (1 / 100)))).2 =
      some (misc.ProcessOutput.TestPassed
        (misc.StandardLineParser.create_test_result "x" TestStatus.Passed) 5) ∧
    ((misc.TestRunState.new.handle_line 0 (misc.TestOutputLine.TestStart "x")).1.handle_line
        5 (misc.TestOutputLine.TestResult "x" TestStatus.Passed none)).2 =
      some (misc.ProcessOutput.TestPassed
        (misc.StandardLineParser.create_test_result "x" TestStatus.Passed) 5) ∧
    (5 : Rat) ≠ 10 := by
  refine ⟨?_, ?_, ?_, ?_⟩ <;> first | decide | rfl

theorem mem_b_iff (x : String) (l : List String) : mem_b x l = true ↔ x ∈ l := by
  induction l with
  | nil => simp [mem_b]
  | cons y ys ih => simp [mem_b, ih, List.mem_cons]

theorem edge_b_of_mem {g : FixtureDependencyGraph} {a b : String}
    (h : b ∈ g.deps a) : g.edge_b a b = true :=
  (mem_b_iff b (g.deps a)).mpr h

theorem mem_of_edge_b {g : FixtureDependencyGraph} {a b : String}
    (h : g.edge_b a b = true) : b ∈ g.deps a :=
  (mem_b_iff b (g.deps a)).mp h

theorem assoc_find_isSome_iff {α : Type} (k : String) (l : List (String × α)) :
    (assoc_find k l).isSome = true ↔ k ∈ l.map Prod.fst := by
  induction l with
  | nil => simp [assoc_find]
  | cons p rest ih =>
    by_cases hk : p.1 = k
    · simp [assoc_find, hk]
    · simp [assoc_find, hk, ih, Ne.symm hk]

theorem contains_fixture_iff (g : FixtureDependencyGraph) (n : String) :
    g.contains_fixture n = true ↔ n ∈ g.keys :=
  assoc_find_isSome_iff n g.fixtures

theorem assoc_find_mem {α : Type} {k : String} {v : α} {l : List (String × α)}
    (h : assoc_find k l = some v) : (k, v) ∈ l := by
  induction l with
  | nil => simp [assoc_find] at h
  | cons p rest ih =>
    obtain ⟨p1, p2⟩ := p
    by_cases hk : p1 = k
    · subst hk
      have h₂ : p2 = v := by simpa [assoc_find] using h
      subst h₂
      exact List.mem_cons_self _ _
    · simp only [assoc_find, hk, if_false] at h
      exact List.mem_cons_of_mem _ (ih h)

theorem all_deps_reg_mem {g : FixtureDependencyGraph} (hreg : AllDepsRegB g = true)
    {n d : String} (hd : d ∈ g.deps n) : g.contains_fixture d = true := by
  unfold FixtureDependencyGraph.deps at hd
  cases hfind : assoc_find n g.dependencies with
  | none => rw [hfind] at hd; simp at hd
  | some ds =>
    rw [hfind] at hd
    simp only [Option.getD_some] at hd
    have hmem := assoc_find_mem hfind
    unfold AllDepsRegB at hreg
    rw [List.all_eq_true] at hreg
    have := hreg _ hmem
    rw [List.all_eq_true] at this
    exact this d hd

theorem deps_reg_keys {g : FixtureDependencyGraph} (hreg : AllDepsRegB g = true)
    {n d : String} (hd : d ∈ g.deps n) : d ∈ g.keys :=
  (contains_fixture_iff g d).mp (all_deps_reg_mem hreg hd)

theorem idx_of_append_left (x : String) (l l₂ : List String) (h : x ∈ l) :
    idx_of x (l ++ l₂) = idx_of x l := by
  induction l with
  | nil => simp at h
  | cons y ys ih =>
    by_cases hy : y = x
    · simp [idx_of, hy]
    · have hx : x ∈ ys := by
        rcases List.mem_cons.mp h with h₁ | h₁
        · exact absurd h₁.symm hy
        · exact h₁
      simp [idx_of, hy, ih hx]

theorem idx_of_append_right (x : String) (l l₂ : List String) (h : x ∉ l) :
    idx_of x (l ++ l₂) = l.length + idx_of x l₂ := by
  induction l with
  | nil => simp
  | cons y ys ih =>
    have hy : y ≠ x := fun he => h (by simp [he])
    have hx : x ∉ ys := fun hm => h (by simp [hm])
    simp [idx_of, hy, ih hx]
    omega

theorem idx_of_lt_length (x : String) (l : List String) (h : x ∈ l) :
    idx_of x l < l.length := by
  induction l with
  | nil => simp at h
  | cons y ys ih =>
    by_cases hy : y = x
    · simp [idx_of, hy]
    · have hx : x ∈ ys := by
        rcases List.mem_cons.mp h with h₁ | h₁
        · exact absurd h₁.symm hy
        · exact h₁
      simp only [idx_of, hy, if_false, List.length_cons]
      exact Nat.succ_lt_succ (ih hx)

theorem deps_closed_snoc {g : FixtureDependencyGraph} {l : List String} {name : String}
    (h : DepsClosed g l) (hname : name ∉ l) (hdeps : ∀ d ∈ g.deps name, d ∈ l) :
    DepsClosed g (l ++ [name]) := by
  intro a ha d hd
  rcases List.mem_append.mp ha with hal | han
  · rcases h a hal d hd with ⟨hdl, hlt⟩
    refine ⟨List.mem_append.mpr (Or.inl hdl), ?_⟩
    rw [idx_of_append_left d l [name] hdl, idx_of_append_left a l [name] hal]
    exact hlt
  · have hae : a = name := by simpa using han
    subst hae
    have hdl := hdeps d hd
    refine ⟨List.mem_append.mpr (Or.inl hdl), ?_⟩
    rw [idx_of_append_left d l _ hdl, idx_of_append_right a l _ hname]
    have := idx_of_lt_length d l hdl
    omega

theorem nodup_sub_length {l m : List String} (hnd : l.Nodup) (hsub : ∀ x ∈ l, x ∈ m) :
    l.length ≤ m.length := by
  classical
  calc l.length = l.toFinset.card := (List.toFinset_card_of_nodup hnd).symm
    _ ≤ m.toFinset.card := by
        apply Finset.card_le_card
        intro x hx
        rw [List.mem_toFinset] at hx ⊢
        exact hsub x hx
    _ ≤ m.length := List.toFinset_card_le m

theorem chain_b_append_edge {g : FixtureDependencyGraph} {a b : String} :
    ∀ (xs : List String), chain_b g (xs ++ [a]) = true → g.edge_b a b = true →
      chain_b g (xs ++ [a, b]) = true := by
  intro xs
  induction xs with
  | nil => intro _ he; simp [chain_b, he]
  | cons x xs ih =>
    intro hc he
    cases xs with
    | nil =>
      simp only [List.cons_append, List.nil_append, chain_b, Bool.and_eq_true] at hc ⊢
      exact ⟨hc.1, by simp [chain_b, he]⟩
    | cons y ys =>
      simp only [List.cons_append, chain_b, Bool.and_eq_true] at hc ⊢
      exact ⟨hc.1, by simpa using ih (by simpa using hc.2) he⟩

theorem chain_b_split_last {g : FixtureDependencyGraph} {b : String} :
    ∀ (x : String) (xs : List String), chain_b g ((x :: xs) ++ [b]) = true →
      chain_b g (x :: xs) = true ∧ g.edge_b (xs.getLastD x) b = true := by
  intro x xs
  induction xs generalizing x with
  | nil =>
    intro hc
    refine ⟨rfl, ?_⟩
    simpa [chain_b] using hc
  | cons y ys ih =>
    intro hc
    simp only [List.cons_append, chain_b, Bool.and_eq_true] at hc
    have hrec := ih y (by simpa using hc.2)
    refine ⟨?_, ?_⟩
    · simp [chain_b, hc.1, hrec.1]
    · rw [List.getLastD_cons]
      exact hrec.2

theorem stacked_path {g : FixtureDependencyGraph} :
    ∀ {temp : List String} {n : String}, Stacked g temp n →
      ∀ m ∈ temp, path_to g m n := by
  intro temp n hst
  induction hst with
  | nil => intro m hm; simp at hm
  | cons t rest n hedge _ ih =>
    intro m hm
    rcases List.mem_cons.mp hm with hmt | hmr
    · subst hmt
      exact ⟨[], by simp [chain_b, edge_b_of_mem hedge]⟩
    · rcases ih m hmr with ⟨mid, hchain⟩
      refine ⟨mid ++ [t], ?_⟩
      have := chain_b_append_edge (m :: mid) hchain (edge_b_of_mem hedge)
      simpa using this

theorem stacked_cycle {g : FixtureDependencyGraph} {temp : List String} {n : String}
    (hst : Stacked g temp n) (hmem : n ∈ temp) : InvolvedInCycle g n := by
  rcases stacked_path hst n hmem with ⟨mid, hchain⟩
  rcases chain_b_split_last n mid hchain with ⟨hc, he⟩
  refine ⟨n :: mid, ?_, by simp⟩
  unfold cycle_b
  rw [Bool.and_eq_true]
  exact ⟨hc, he⟩

/-- The dependency loop preserves the DFS invariants: assuming the visit
callback (one fuel level down) satisfies its contract, the loop either
extends the order with every listed dependency present, or fails with a
circular error naming a fixture on a cycle. -/
theorem visit_deps_post (g : FixtureDependencyGraph) (hreg : AllDepsRegB g = true)
    (fuel : Nat)
    (hfix : ∀ (name : String) (visited temp result : List String),
      name ∈ g.keys → (∀ x ∈ temp, x ∈ g.keys) → temp.Nodup →
      g.keys.length + 1 ≤ fuel + temp.length → Stacked g temp name →
      StateInv g visited result →
      VisitPost g temp result name (visit_fixture g fuel name visited temp result)) :
    ∀ (ds : List String) (name : String) (visited temp₀ result : List String),
      (∀ d ∈ ds, d ∈ g.deps name) → name ∈ g.keys →
      (∀ x ∈ temp₀, x ∈ g.keys) → temp₀.Nodup → name ∉ temp₀ →
      g.keys.length + 1 ≤ fuel + (temp₀.length + 1) → Stacked g temp₀ name →
      StateInv g visited result →
      DepsPost g (name :: temp₀) result ds
        (visit_deps g (visit_fixture g fuel) ds name visited (name :: temp₀) result) := by
  intro ds
  induction ds with
  | nil =>
    intro name visited temp₀ result _ _ _ _ _ _ _ hsi
    simp only [visit_deps, DepsPost]
    exact ⟨⟨[], by simp⟩, fun x hx => Or.inl hx, hsi, by simp⟩
  | cons d rest ih =>
    intro name visited temp₀ result hds hname htempk htempnd hnin hfuel hstack hsi
    have hdmem : d ∈ g.deps name := hds d (by simp)
    have hdreg : g.contains_fixture d = true := all_deps_reg_mem hreg hdmem
    have hdk : d ∈ g.keys := (contains_fixture_iff g d).mp hdreg
    have hpost := hfix d visited (name :: temp₀) result hdk
      (by
        intro x hx
        rcases List.mem_cons.mp hx with h | h
        · subst h; exact hname
        · exact htempk x h)
      (List.nodup_cons.mpr ⟨hnin, htempnd⟩)
      (by simpa [Nat.add_assoc] using hfuel)
      (Stacked.cons name temp₀ d hdmem hstack)
      hsi
    simp only [visit_deps, hdreg, if_true]
    cases hv : visit_fixture g fuel d visited (name :: temp₀) result with
    | error e =>
      rw [hv] at hpost
      cases e with
      | circular m => simpa [DepsPost, VisitPost] using hpost
      | undefined a b => simp [VisitPost] at hpost
      | out_of_fuel => simp [VisitPost] at hpost
    | ok vr =>
      obtain ⟨v₁, r₁⟩ := vr
      rw [hv] at hpost
      simp only [VisitPost] at hpost
      obtain ⟨⟨Δ₁, hΔ₁⟩, hnew₁, hsi₁, hdin⟩ := hpost
      have hrest := ih name v₁ temp₀ r₁ (fun d₂ h₂ => hds d₂ (by simp [h₂]))
        hname htempk htempnd hnin hfuel hstack hsi₁
      dsimp only
      cases hw : visit_deps g (visit_fixture g fuel) rest name v₁ (name :: temp₀) r₁ with
      | error e =>
        rw [hw] at hrest
        cases e with
        | circular m => simpa [DepsPost] using hrest
        | undefined a b => simp [DepsPost] at hrest
        | out_of_fuel => simp [DepsPost] at hrest
      | ok vr₂ =>
        obtain ⟨v₂, r₂⟩ := vr₂
        rw [hw] at hrest
        simp only [DepsPost] at hrest ⊢
        obtain ⟨⟨Δ₂, hΔ₂⟩, hnew₂, hsi₂, hall₂⟩ := hrest
        refine ⟨⟨Δ₁ ++ Δ₂, by rw [hΔ₂, hΔ₁, List.append_assoc]⟩, ?_, hsi₂, ?_⟩
        · intro x hx
          rcases hnew₂ x hx with hxr₁ | hxnt
          · rcases hnew₁ x hxr₁ with hxr | hxnt
            · exact Or.inl hxr
            · exact Or.inr hxnt
          · exact Or.inr hxnt
        · intro d₂ hd₂
          rcases List.mem_cons.mp hd₂ with h | h
          · subst h
            rw [hΔ₂]
            exact List.mem_append.mpr (Or.inl hdin)
          · exact hall₂ d₂ h

/-- The DFS contract: with all dependency names registered and enough fuel,
`visit_fixture` either returns an extended order satisfying the state
invariant with the visited fixture present, or fails with a circular error
naming a fixture on a cycle; the undefined-fixture and fuel outcomes are
impossible under these hypotheses. -/
theorem visit_fixture_post (g : FixtureDependencyGraph) (hreg : AllDepsRegB g = true) :
    ∀ (fuel : Nat) (name : String) (visited temp result : List String),
      name ∈ g.keys → (∀ x ∈ temp, x ∈ g.keys) → temp.Nodup →
      g.keys.length + 1 ≤ fuel + temp.length → Stacked g temp name →
      StateInv g visited result →
      VisitPost g temp result name (visit_fixture g fuel name visited temp result) := by
  intro fuel
  induction fuel with
  | zero =>
    intro name visited temp result _ htempk htempnd hfuel _ _
    exfalso
    have hlen : temp.length ≤ g.keys.length := nodup_sub_length htempnd htempk
    omega
  | succ fuel ih =>
    intro name visited temp result hname htempk htempnd hfuel hstack hsi
    by_cases hmem : name ∈ temp
    · simp only [visit_fixture, hmem, if_true, VisitPost]
      exact stacked_cycle hstack hmem
    · by_cases hvis : name ∈ visited
      · simp only [visit_fixture, hmem, hvis, if_true, if_false, VisitPost]
        exact ⟨⟨[], by simp⟩, fun x hx => Or.inl hx, hsi, (hsi.1 name).mp hvis⟩
      · have hdeps := visit_deps_post g hreg fuel ih (g.deps name) name visited temp
          result (fun d hd => hd) hname htempk htempnd hmem (by omega) hstack hsi
        simp only [visit_fixture, hmem, hvis, if_false]
        cases hw : visit_deps g (visit_fixture g fuel) (g.deps name) name visited
            (name :: temp) result with
        | error e =>
          rw [hw] at hdeps
          cases e with
          | circular m => simpa [DepsPost, VisitPost] using hdeps
          | undefined a b => simp [DepsPost] at hdeps
          | out_of_fuel => simp [DepsPost] at hdeps
        | ok vr =>
          obtain ⟨v, r⟩ := vr
          rw [hw] at hdeps
          simp only [DepsPost] at hdeps
          obtain ⟨⟨Δ, hΔ⟩, hnew, hsi₁, hall⟩ := hdeps
          dsimp only
          have hnr : name ∉ r := by
            intro hin
            rcases hnew name hin with hres | hnt
            · exact hvis ((hsi.1 name).mpr hres)
            · exact hnt (by simp)
          simp only [VisitPost]
          refine ⟨⟨Δ ++ [name], by rw [hΔ, List.append_assoc]⟩, ?_, ?_, by simp⟩
          · intro x hx
            rcases List.mem_append.mp hx with hxr | hxn
            · rcases hnew x hxr with hres | hnt
              · exact Or.inl hres
              · exact Or.inr fun hxt => hnt (by simp [hxt])
            · have hxe : x = name := by simpa using hxn
              subst hxe
              exact Or.inr hmem
          · obtain ⟨hiff, hnd, hkeys, hdc⟩ := hsi₁
            refine ⟨?_, ?_, ?_, ?_⟩
            · intro x
              constructor
              · intro hx
                rcases List.mem_cons.mp hx with he | hv₂
                · subst he; simp
                · exact List.mem_append.mpr (Or.inl ((hiff x).mp hv₂))
              · intro hx
                rcases List.mem_append.mp hx with hr₂ | hn
                · exact List.mem_cons.mpr (Or.inr ((hiff x).mpr hr₂))
                · have : x = name := by simpa using hn
                  subst this
                  simp
            · exact List.Nodup.append hnd (List.nodup_singleton name)
                (by
                  intro x hx hy
                  have : x = name := by simpa using hy
                  subst this
                  exact hnr hx)
            · intro x hx
              rcases List.mem_append.mp hx with hr₂ | hn
              · exact hkeys x hr₂
              · have : x = name := by simpa using hn
                subst this
                exact hname
            · exact deps_closed_snoc hdc hnr hall

/-- The top-level resolution loop accumulates every key it is given. -/
theorem resolve_go_post (g : FixtureDependencyGraph) (hreg : AllDepsRegB g = true) :
    ∀ (ks : List String) (visited result : List String),
      (∀ k ∈ ks, k ∈ g.keys) → StateInv g visited result →
      ResolvePost g result ks (resolve_order_go g ks visited result) := by
  intro ks
  induction ks with
  | nil =>
    intro visited result _ hsi
    simp only [resolve_order_go, ResolvePost]
    exact ⟨⟨[], by simp⟩, hsi.2.1, hsi.2.2.1, hsi.2.2.2, by simp⟩
  | cons k ks ih =>
    intro visited result hks hsi
    by_cases hv : k ∈ visited
    · simp only [resolve_order_go, hv, if_true]
      have hrec := ih visited result (fun k₂ h₂ => hks k₂ (by simp [h₂])) hsi
      cases hr : resolve_order_go g ks visited result with
      | error e =>
        rw [hr] at hrec
        cases e with
        | circular m => simpa [ResolvePost] using hrec
        | undefined a b => simp [ResolvePost] at hrec
        | out_of_fuel => simp [ResolvePost] at hrec
      | ok l =>
        rw [hr] at hrec
        simp only [ResolvePost] at hrec ⊢
        obtain ⟨⟨Δ, hΔ⟩, hnd, hkeys, hdc, hall⟩ := hrec
        refine ⟨⟨Δ, hΔ⟩, hnd, hkeys, hdc, ?_⟩
        intro k₂ h₂
        rcases List.mem_cons.mp h₂ with he | hm
        · subst he
          rw [hΔ]
          exact List.mem_append.mpr (Or.inl ((hsi.1 k₂).mp hv))
        · exact hall k₂ hm
    · simp only [resolve_order_go, hv, if_false]
      have hk : k ∈ g.keys := hks k (by simp)
      have hfuel : g.keys.length + 1 ≤ (g.fixtures.length + 1) + ([] : List String).length := by
        simp [FixtureDependencyGraph.keys]
      have hpost := visit_fixture_post g hreg (g.fixtures.length + 1) k visited [] result
        hk (by simp) List.nodup_nil hfuel (Stacked.nil k) hsi
      cases hw : visit_fixture g (g.fixtures.length + 1) k visited [] result with
      | error e =>
        rw [hw] at hpost
        cases e with
        | circular m => simpa [VisitPost, ResolvePost] using hpost
        | undefined a b => simp [VisitPost] at hpost
        | out_of_fuel => simp [VisitPost] at hpost
      | ok vr =>
        obtain ⟨v, r⟩ := vr
        rw [hw] at hpost
        simp only [VisitPost] at hpost
        obtain ⟨⟨Δ₁, hΔ₁⟩, _, hsi₁, hkin⟩ := hpost
        dsimp only
        have hrec := ih v r (fun k₂ h₂ => hks k₂ (by simp [h₂])) hsi₁
        cases hr : resolve_order_go g ks v r with
        | error e =>
          rw [hr] at hrec
          cases e with
          | circular m => simpa [ResolvePost] using hrec
          | undefined a b => simp [ResolvePost] at hrec
          | out_of_fuel => simp [ResolvePost] at hrec
        | ok l =>
          rw [hr] at hrec
          simp only [ResolvePost] at hrec ⊢
          obtain ⟨⟨Δ₂, hΔ₂⟩, hnd, hkeys, hdc, hall⟩ := hrec
          refine ⟨⟨Δ₁ ++ Δ₂, by rw [hΔ₂, hΔ₁, List.append_assoc]⟩, hnd, hkeys, hdc, ?_⟩
          intro k₂ h₂
          rcases List.mem_cons.mp h₂ with he | hm
          · subst he
            rw [hΔ₂]
            exact List.mem_append.mpr (Or.inl hkin)
          · exact hall k₂ hm

/-- A successful resolution is duplicate-free, covers exactly the registered
fixtures, and places every dependency strictly before its dependent. -/
theorem resolve_ok_props (g : FixtureDependencyGraph) (hreg : AllDepsRegB g = true)
    (l : List String) (hok : g.resolve_order = Except.ok l) :
    l.Nodup ∧ (∀ k, k ∈ l ↔ k ∈ g.keys) ∧ DepsClosed g l := by
  have hsi : StateInv g [] [] := by
    refine ⟨fun x => Iff.rfl, List.nodup_nil, ?_, ?_⟩
    · intro x hx
      exact absurd hx (List.not_mem_nil x)
    · intro a ha
      exact absurd ha (List.not_mem_nil a)
  have hpost := resolve_go_post g hreg g.keys [] [] (fun k h => h) hsi
  unfold FixtureDependencyGraph.resolve_order at hok
  rw [hok] at hpost
  simp only [ResolvePost] at hpost
  obtain ⟨_, hnd, hkeys, hdc, hall⟩ := hpost
  exact ⟨hnd, fun k => ⟨fun hk => hkeys k hk, fun hk => hall k hk⟩, hdc⟩

/-- With all dependency names registered, a failed resolution is the
circular-dependency error, naming a fixture involved in a cycle. -/
theorem resolve_err_circular (g : FixtureDependencyGraph) (hreg : AllDepsRegB g = true)
    (e : FixtureError) (herr : g.resolve_order = Except.error e) :
    ∃ m, e = FixtureError.circular m ∧ InvolvedInCycle g m := by
  have hsi : StateInv g [] [] := by
    refine ⟨fun x => Iff.rfl, List.nodup_nil, ?_, ?_⟩
    · intro x hx
      exact absurd hx (List.not_mem_nil x)
    · intro a ha
      exact absurd ha (List.not_mem_nil a)
  have hpost := resolve_go_post g hreg g.keys [] [] (fun k h => h) hsi
  unfold FixtureDependencyGraph.resolve_order at herr
  rw [herr] at hpost
  cases e with
  | circular m => exact ⟨m, rfl, by simpa [ResolvePost] using hpost⟩
  | undefined a b => simp [ResolvePost] at hpost
  | out_of_fuel => simp [ResolvePost] at hpost

theorem chain_targets (g : FixtureDependencyGraph) :
    ∀ (rest : List String) (a : String), chain_b g (a :: rest) = true →
      ∀ x ∈ rest, ∃ y, x ∈ g.deps y := by
  intro rest
  induction rest with
  | nil => intro a _ x hx; simp at hx
  | cons b ys ih =>
    intro a hc x hx
    simp only [chain_b, Bool.and_eq_true] at hc
    rcases List.mem_cons.mp hx with he | hm
    · subst he
      exact ⟨a, mem_of_edge_b hc.1⟩
    · exact ih b hc.2 x hm

theorem getLastD_mem_cons : ∀ (l : List String) (a : String), l.getLastD a ∈ a :: l := by
  intro l
  induction l with
  | nil => intro a; simp [List.getLastD]
  | cons b ys ih =>
    intro a
    rw [List.getLastD_cons]
    rcases List.mem_cons.mp (ih b) with he | hm
    · rw [he]; simp
    · exact List.mem_cons.mpr (Or.inr (List.mem_cons.mpr (Or.inr hm)))

/-- Along a dependency chain inside a deps-closed order, indices do not
increase. -/
theorem chain_idx_le (g : FixtureDependencyGraph) {l : List String}
    (hdc : DepsClosed g l) :
    ∀ (rest : List String) (a : String), chain_b g (a :: rest) = true →
      (∀ x ∈ a :: rest, x ∈ l) → idx_of (rest.getLastD a) l ≤ idx_of a l := by
  intro rest
  induction rest with
  | nil => intro a _ _; simp [List.getLastD]
  | cons b ys ih =>
    intro a hc hmem
    simp only [chain_b, Bool.and_eq_true] at hc
    have hb : b ∈ g.deps a := mem_of_edge_b hc.1
    have hal : a ∈ l := hmem a (by simp)
    have hlt := (hdc a hal b hb).2
    have hrec := ih b hc.2 (by
      intro x hx
      apply hmem
      rcases List.mem_cons.mp hx with he | hm
      · simp [he]
      · simp [List.mem_cons.mpr (Or.inr hm)])
    rw [List.getLastD_cons]
    omega

/-- A successful resolution certifies acyclicity. -/
theorem resolve_ok_acyclic (g : FixtureDependencyGraph) (hreg : AllDepsRegB g = true)
    (l : List String) (hok : g.resolve_order = Except.ok l) : ¬ HasCycle g := by
  rintro ⟨c, hcyc⟩
  obtain ⟨hnd, hiff, hdc⟩ := resolve_ok_props g hreg l hok
  cases c with
  | nil => simp [cycle_b] at hcyc
  | cons a rest =>
    have hcyc₂ : chain_b g (a :: rest) = true ∧
        g.edge_b (rest.getLastD a) a = true := by
      unfold cycle_b at hcyc
      rw [Bool.and_eq_true] at hcyc
      exact hcyc
    obtain ⟨hchain, hedge⟩ := hcyc₂
    have hmem : ∀ x ∈ a :: rest, x ∈ l := by
      intro x hx
      rcases List.mem_cons.mp hx with he | hm
      · subst he
        exact (hiff x).mpr (deps_reg_keys hreg (mem_of_edge_b hedge))
      · obtain ⟨y, hy⟩ := chain_targets g rest a hchain x hm
        exact (hiff x).mpr (deps_reg_keys hreg hy)
    have hlast : rest.getLastD a ∈ l := hmem _ (getLastD_mem_cons rest a)
    have hclose := (hdc _ hlast a (mem_of_edge_b hedge)).2
    have hle := chain_idx_le g hdc rest a hchain hmem
    omega

/-- With all dependency names registered, a cycle forces the circular
error. -/
theorem cycle_resolve_error (g : FixtureDependencyGraph) (hreg : AllDepsRegB g = true)
    (hcyc : HasCycle g) :
    ∃ m, g.resolve_order = Except.error (FixtureError.circular m) ∧
      InvolvedInCycle g m := by
  cases hr : g.resolve_order with
  | ok l => exact absurd hcyc (resolve_ok_acyclic g hreg l hr)
  | error e =>
    obtain ⟨m, he, hm⟩ := resolve_err_circular g hreg e hr
    exact ⟨m, by rw [he], hm⟩

/-- Looking up a key after updating it in place finds the new value,
provided the key was present. -/
theorem assoc_find_update {α : Type} (k : String) (v : α) (l : List (String × α))
    (h : (assoc_find k l).isSome) : assoc_find k (assoc_update k v l) = some v := by
  induction l with
  | nil => simp [assoc_find] at h
  | cons p rest ih =>
    by_cases hk : p.1 = k
    · simp [assoc_find, assoc_update, hk]
    · simp only [assoc_find, assoc_update, hk, if_false] at h ⊢
      exact ih h

/-- C2 counterexample: a panic message handled before any panic location is
dropped — after both pieces have arrived (message first, then the location
for test `t`), the pending entry for `t` has no message. -/
theorem C2_message_before_location_lost :
    assoc_find "t" cargo.c2_message_first.pending_errors =
      some { location := some { file := "src/lib.rs", line := 10, column := 5 },
             message := none, backtrace := [] } := by
  decide

/-- C2 amended: a location-only panic event merges idempotently — it never
erases a previously recorded message for the same test — and the two pieces
are combined when the location arrives first (shown from an empty pending
table, where the message's last-entry targeting is unambiguous); a
message-only event arriving first is dropped (see the counterexample).  In
the misc.rs combined-`Panic` handler, a panic event for a test with an
existing entry overwrites both fields, recording an absent location as the
empty location rather than preserving the earlier one. -/
theorem C2_pending_merge_amended :
    (∀ (s : cargo.TestRunState) (now : Nat) (t f : String) (l c : Nat)
        (prior : ErrorInfo),
      assoc_find t s.pending_errors = some prior →
      assoc_find t
          ((s.handle_line now (cargo.TestOutputLine.PanicLocation t f l c)).1).pending_errors =
        some (prior.set_location f l c)) ∧
    (∀ (s : cargo.TestRunState) (now : Nat) (t f : String) (l c : Nat) (m : String),
      s.pending_errors = [] →
      assoc_find t
          (((s.handle_line now (cargo.TestOutputLine.PanicLocation t f l c)).1.handle_line
            now (cargo.TestOutputLine.PanicMessage m)).1).pending_errors =
        some ((ErrorInfo.new.set_location f l c).set_message m)) ∧
    (∀ (s : misc.TestRunState) (now : Nat) (t m : String) (prior : ErrorInfo),
      assoc_find t s.pending_errors = some prior →
      assoc_find t
          ((s.handle_line now (misc.TestOutputLine.Panic m t none)).1).pending_errors =
        some ((prior.set_location "" 0 0).set_message m)) := by
  refine ⟨?_, ?_, ?_⟩
  · intro s now t f l c prior hfind
    simp only [cargo.TestRunState.handle_line, hfind]
    exact assoc_find_update t _ _ (by simp [hfind])
  · intro s now t f l c m hpe
    simp [cargo.TestRunState.handle_line, hpe, assoc_find, cargo.set_last_message]
  · intro s now t m prior hfind
    simp only [misc.TestRunState.handle_line, hfind, Option.getD_some, Option.map_none,
      Option.getD_none]
    exact assoc_find_update t _ _ (by simp [hfind])

/-- C2 witness: the amended merge statements at concrete states. -/
theorem C2_pending_merge_amended_witness :
    (assoc_find "t"
        ({ tests := [], pending_errors := [("t", ErrorInfo.new.set_message "m0")],
           current_suite := none } : cargo.TestRunState).pending_errors =
      some (ErrorInfo.new.set_message "m0")) ∧
    (assoc_find "t"
        ((({ tests := [], pending_errors := [("t", ErrorInfo.new.set_message "m0")],
             current_suite := none } : cargo.TestRunState).handle_line 0
          (cargo.TestOutputLine.PanicLocation "t" "src/lib.rs" 10 5)).1).pending_errors =
      some ((ErrorInfo.new.set_message "m0").set_location "src/lib.rs" 10 5)) ∧
    (assoc_find "t"
        (((cargo.TestRunState.new.handle_line 0
            (cargo.TestOutputLine.PanicLocation "t" "src/lib.rs" 10 5)).1.handle_line 0
          (cargo.TestOutputLine.PanicMessage "assertion failed")).1).pending_errors =
      some ((ErrorInfo.new.set_location "src/lib.rs" 10 5).set_message "assertion failed")) ∧
    (assoc_find "t"
        ((({ tests := [], pending_errors := [("t", ErrorInfo.new.set_location "a.rs" 1 2)],
             current_suite := none } : misc.TestRunState).handle_line 0
          (misc.TestOutputLine.Panic "m" "t" none)).1).pending_errors =
      some (((ErrorInfo.new.set_location "a.rs" 1 2).set_location "" 0 0).set_message "m")) :=
  ⟨by decide,
    C2_pending_merge_amended.1
      { tests := [], pending_errors := [("t", ErrorInfo.new.set_message "m0")],
        current_suite := none } 0 "t" "src/lib.rs" 10 5
      (ErrorInfo.new.set_message "m0") (by decide),
    C2_pending_merge_amended.2.1 cargo.TestRunState.new 0 "t" "src/lib.rs" 10 5
      "assertion failed" rfl,
    C2_pending_merge_amended.2.2
      { tests := [], pending_errors := [("t", ErrorInfo.new.set_location "a.rs" 1 2)],
        current_suite := none } 0 "t" "m"
      (ErrorInfo.new.set_location "a.rs" 1 2) (by decide)⟩

theorem assoc_find_im_insert_self {α : Type} (k : String) (v : α)
    (l : List (String × α)) : assoc_find k (im_insert k v l) = some v := by
  induction l with
  | nil => simp [im_insert, assoc_find]
  | cons p rest ih =>
    obtain ⟨k₂, v₂⟩ := p
    by_cases hk : k₂ = k
    · simp [im_insert, hk, assoc_find]
    · simp [im_insert, hk, assoc_find, ih]

theorem assoc_find_im_insert_other {α : Type} {k k₂ : String} (hne : k₂ ≠ k) (v : α)
    (l : List (String × α)) : assoc_find k₂ (im_insert k v l) = assoc_find k₂ l := by
  have hsym : ¬ (k = k₂) := fun h => hne (Eq.symm h)
  induction l with
  | nil => simp [im_insert, assoc_find, hsym]
  | cons p rest ih =>
    obtain ⟨k₃, v₃⟩ := p
    by_cases hk : k₃ = k
    · subst hk
      simp [im_insert, assoc_find, hsym]
    · simp [im_insert, hk, assoc_find, ih]

theorem assoc_remove_fst {α : Type} (k : String) (l : List (String × α)) :
    (assoc_remove k l).1 = assoc_find k l := by
  induction l with
  | nil => simp [assoc_remove, assoc_find]
  | cons p rest ih =>
    obtain ⟨k₂, v₂⟩ := p
    by_cases hk : k₂ = k
    · simp [assoc_remove, assoc_find, hk]
    · simp [assoc_remove, assoc_find, hk, ih]

theorem assoc_remove_find_other {α : Type} {k k₂ : String} (hne : k₂ ≠ k)
    (l : List (String × α)) :
    assoc_find k₂ (assoc_remove k l).2 = assoc_find k₂ l := by
  have hsym : ¬ (k = k₂) := fun h => hne (Eq.symm h)
  induction l with
  | nil => simp [assoc_remove, assoc_find]
  | cons p rest ih =>
    obtain ⟨k₃, v₃⟩ := p
    by_cases hk : k₃ = k
    · subst hk
      simp [assoc_remove, assoc_find, hsym]
    · by_cases hk₂ : k₃ = k₂
      · subst hk₂
        simp [assoc_remove, assoc_find, hne]
      · simp [assoc_remove, assoc_find, hk, hk₂, ih]

theorem setups_ok_get {g : FixtureDependencyGraph} {ctx : TestContext}
    (hok : setups_ok g ctx = true) {n : String} {fx : FixtureDefinition}
    {sf : FixtureSetupFn} (h1 : g.get_fixture n = some fx) (h2 : fx.setup = some sf) :
    sf.exec ctx = Except.ok () := by
  have hm := assoc_find_mem h1
  unfold setups_ok at hok
  rw [List.all_eq_true] at hok
  have hfx := hok _ hm
  rw [h2] at hfx
  cases hexec : sf.exec ctx with
  | ok u => cases u; rfl
  | error e => simp [hexec] at hfx

theorem teardowns_ok_get {g : FixtureDependencyGraph} {ctx : TestContext}
    (hok : teardowns_ok g ctx = true) {n : String} {fx : FixtureDefinition}
    {tf : FixtureTeardownFn} (h1 : g.get_fixture n = some fx)
    (h2 : fx.teardown = some tf) : tf.exec ctx = Except.ok () := by
  have hm := assoc_find_mem h1
  unfold teardowns_ok at hok
  rw [List.all_eq_true] at hok
  have hfx := hok _ hm
  rw [h2] at hfx
  cases hexec : tf.exec ctx with
  | ok u => cases u; rfl
  | error e => simp [hexec] at hfx

theorem setup_has_teardown_get {g : FixtureDependencyGraph}
    (htt : setup_has_teardown g = true) {n : String} {fx : FixtureDefinition}
    (h1 : g.get_fixture n = some fx) (h2 : fx.setup.isSome = true) :
    fx.teardown.isSome = true := by
  have hm := assoc_find_mem h1
  unfold setup_has_teardown at htt
  rw [List.all_eq_true] at htt
  have hfx := htt _ hm
  simp only [Bool.or_eq_true, Bool.not_eq_true'] at hfx
  rcases hfx with h | h
  · rw [h2] at h; cases h
  · exact h

/-- A setup pass invokes exactly the in-scope fixtures with a setup
function, in order, and afterwards an instance is present exactly for the
fixtures it set up or that were present before. -/
theorem setup_go_spec (g : FixtureDependencyGraph) (scope : FixtureScope)
    (ctx : TestContext) (hok : setups_ok g ctx = true) :
    ∀ (order : List String) (insts : List (String × Unit)) (invoked : List String),
      (setup_scope_go g scope ctx order insts invoked).1 =
        invoked ++ order.filter (reg_setup_p g scope) ∧
      ∃ insts₂, (setup_scope_go g scope ctx order insts invoked).2 = Except.ok insts₂ ∧
        ∀ n, (assoc_find n insts₂).isSome = true ↔
          ((assoc_find n insts).isSome = true ∨
            (reg_setup_p g scope n = true ∧ n ∈ order)) := by
  intro order
  induction order with
  | nil =>
    intro insts invoked
    exact ⟨by simp [setup_scope_go], insts, rfl, by simp⟩
  | cons n rest ih =>
    intro insts invoked
    cases hf : g.get_fixture n with
    | none =>
      have hp : reg_setup_p g scope n = false := by simp [reg_setup_p, hf]
      obtain ⟨h1, insts₂, h2, h3⟩ := ih insts invoked
      refine ⟨?_, insts₂, ?_, ?_⟩
      · simpa [setup_scope_go, hf, List.filter_cons, hp] using h1
      · simpa [setup_scope_go, hf] using h2
      · intro m
        rw [h3 m]
        constructor
        · rintro (h | ⟨hpm, hm⟩)
          · exact Or.inl h
          · exact Or.inr ⟨hpm, by simp [hm]⟩
        · rintro (h | ⟨hpm, hm⟩)
          · exact Or.inl h
          · rcases List.mem_cons.mp hm with he | hm₂
            · subst he; rw [hpm] at hp; cases hp
            · exact Or.inr ⟨hpm, hm₂⟩
    | some fx =>
      by_cases hs : fx.scope = scope
      · cases hsu : fx.setup with
        | some sf =>
          have hex := setups_ok_get hok hf hsu
          have hp : reg_setup_p g scope n = true := by
            simp [reg_setup_p, hf, hs, hsu]
          obtain ⟨h1, insts₂, h2, h3⟩ := ih (im_insert n () insts) (invoked ++ [n])
          refine ⟨?_, insts₂, ?_, ?_⟩
          · rw [show (setup_scope_go g scope ctx (n :: rest) insts invoked).1 =
                (setup_scope_go g scope ctx rest (im_insert n () insts)
                  (invoked ++ [n])).1 by simp [setup_scope_go, hf, hs, hsu, hex]]
            rw [h1]
            simp [List.filter_cons, hp]
          · rw [show (setup_scope_go g scope ctx (n :: rest) insts invoked).2 =
                (setup_scope_go g scope ctx rest (im_insert n () insts)
                  (invoked ++ [n])).2 by simp [setup_scope_go, hf, hs, hsu, hex]]
            exact h2
          · intro m
            rw [h3 m]
            by_cases hm : m = n
            · subst hm
              simp [assoc_find_im_insert_self, hp]
            · rw [assoc_find_im_insert_other hm]
              constructor
              · rintro (h | ⟨hpm, hmr⟩)
                · exact Or.inl h
                · exact Or.inr ⟨hpm, by simp [hmr]⟩
              · rintro (h | ⟨hpm, hmr⟩)
                · exact Or.inl h
                · rcases List.mem_cons.mp hmr with he | hm₂
                  · exact absurd he hm
                  · exact Or.inr ⟨hpm, hm₂⟩
        | none =>
          have hp : reg_setup_p g scope n = false := by
            simp [reg_setup_p, hf, hs, hsu]
          obtain ⟨h1, insts₂, h2, h3⟩ := ih insts invoked
          refine ⟨?_, insts₂, ?_, ?_⟩
          · simpa [setup_scope_go, hf, hs, hsu, List.filter_cons, hp] using h1
          · simpa [setup_scope_go, hf, hs, hsu] using h2
          · intro m
            rw [h3 m]
            constructor
            · rintro (h | ⟨hpm, hm⟩)
              · exact Or.inl h
              · exact Or.inr ⟨hpm, by simp [hm]⟩
            · rintro (h | ⟨hpm, hm⟩)
              · exact Or.inl h
              · rcases List.mem_cons.mp hm with he | hm₂
                · subst he; rw [hpm] at hp; cases hp
                · exact Or.inr ⟨hpm, hm₂⟩
      · have hp : reg_setup_p g scope n = false := by
          simp [reg_setup_p, hf, hs]
        obtain ⟨h1, insts₂, h2, h3⟩ := ih insts invoked
        refine ⟨?_, insts₂, ?_, ?_⟩
        · simpa [setup_scope_go, hf, hs, List.filter_cons, hp] using h1
        · simpa [setup_scope_go, hf, hs] using h2
        · intro m
          rw [h3 m]
          constructor
          · rintro (h | ⟨hpm, hm⟩)
            · exact Or.inl h
            · exact Or.inr ⟨hpm, by simp [hm]⟩
          · rintro (h | ⟨hpm, hm⟩)
            · exact Or.inl h
            · rcases List.mem_cons.mp hm with he | hm₂
              · subst he; rw [hpm] at hp; cases hp
              · exact Or.inr ⟨hpm, hm₂⟩

/-- A teardown pass over a duplicate-free order invokes exactly the in-scope
fixtures with a present instance and a teardown function, in order. -/
theorem teardown_go_spec (g : FixtureDependencyGraph) (scope : FixtureScope)
    (ctx : TestContext) (hok : teardowns_ok g ctx = true) :
    ∀ (ord : List String) (insts : List (String × Unit)) (invoked : List String),
      ord.Nodup →
      (teardown_scope_go g scope ctx ord insts invoked).1 =
        invoked ++ ord.filter (reg_teardown_p g scope insts) := by
  intro ord
  induction ord with
  | nil => intro insts invoked _; simp [teardown_scope_go]
  | cons n rest ih =>
    intro insts invoked hnd
    have hnin : n ∉ rest := (List.nodup_cons.mp hnd).1
    have hndr : rest.Nodup := (List.nodup_cons.mp hnd).2
    have hcongr : rest.filter (reg_teardown_p g scope (assoc_remove n insts).2) =
        rest.filter (reg_teardown_p g scope insts) := by
      apply List.filter_congr
      intro x hx
      have hne : x ≠ n := fun he => hnin (he ▸ hx)
      unfold reg_teardown_p
      rw [assoc_remove_find_other hne]
    cases hf : g.get_fixture n with
    | none =>
      have hp : reg_teardown_p g scope insts n = false := by
        simp [reg_teardown_p, hf]
      rw [show teardown_scope_go g scope ctx (n :: rest) insts invoked =
          teardown_scope_go g scope ctx rest insts invoked by
        simp [teardown_scope_go, hf]]
      rw [ih insts invoked hndr]
      simp [List.filter_cons, hp]
    | some fx =>
      by_cases hs : fx.scope = scope
      · have hfst := assoc_remove_fst n insts
        cases hfound : assoc_find n insts with
        | none =>
          have hp : reg_teardown_p g scope insts n = false := by
            simp [reg_teardown_p, hf, hfound]
          have hpr : assoc_remove n insts = (none, (assoc_remove n insts).2) := by
            rw [← hfound, ← hfst]
          rw [show teardown_scope_go g scope ctx (n :: rest) insts invoked =
              teardown_scope_go g scope ctx rest insts invoked by
            simp only [teardown_scope_go, hf, hs, if_true]
            rw [hpr]]
          rw [ih insts invoked hndr]
          simp [List.filter_cons, hp]
        | some u =>
          have hpr : assoc_remove n insts = (some u, (assoc_remove n insts).2) := by
            rw [← hfound, ← hfst]
          cases htd : fx.teardown with
          | some tf =>
            have hex := teardowns_ok_get hok hf htd
            have hp : reg_teardown_p g scope insts n = true := by
              simp [reg_teardown_p, hf, hs, hfound, htd]
            rw [show teardown_scope_go g scope ctx (n :: rest) insts invoked =
                teardown_scope_go g scope ctx rest (assoc_remove n insts).2
                  (invoked ++ [n]) by
              simp only [teardown_scope_go, hf, hs, if_true]
              rw [hpr]
              simp [htd, hex]]
            rw [ih _ _ hndr, hcongr]
            simp [List.filter_cons, hp]
          | none =>
            have hp : reg_teardown_p g scope insts n = false := by
              simp [reg_teardown_p, hf, hs, hfound, htd]
            rw [show teardown_scope_go g scope ctx (n :: rest) insts invoked =
                teardown_scope_go g scope ctx rest (assoc_remove n insts).2 invoked by
              simp only [teardown_scope_go, hf, hs, if_true]
              rw [hpr]
              simp [htd]]
            rw [ih _ _ hndr, hcongr]
            simp [List.filter_cons, hp]
      · have hp : reg_teardown_p g scope insts n = false := by
          simp [reg_teardown_p, hf, hs]
        rw [show teardown_scope_go g scope ctx (n :: rest) insts invoked =
            teardown_scope_go g scope ctx rest insts invoked by
          simp [teardown_scope_go, hf, hs]]
        rw [ih insts invoked hndr]
        simp [List.filter_cons, hp]

/-- After a setup pass from empty tables, the teardown predicate over the
fresh instances agrees with the setup predicate on members of the order,
provided every fixture with a setup has a teardown. -/
theorem teardown_p_eq_setup_p {g : FixtureDependencyGraph} {scope : FixtureScope}
    {insts₂ : List (String × Unit)} {order : List String}
    (htt : setup_has_teardown g = true)
    (hmem : ∀ n, (assoc_find n insts₂).isSome = true ↔
      (reg_setup_p g scope n = true ∧ n ∈ order)) :
    ∀ x ∈ order, reg_teardown_p g scope insts₂ x = reg_setup_p g scope x := by
  intro x hx
  cases hf : g.get_fixture x with
  | none => simp [reg_teardown_p, reg_setup_p, hf]
  | some fx =>
    by_cases hs : fx.scope = scope
    · cases hsu : fx.setup with
      | some sf =>
        have hps : reg_setup_p g scope x = true := by simp [reg_setup_p, hf, hs, hsu]
        have hpres : (assoc_find x insts₂).isSome = true := (hmem x).mpr ⟨hps, hx⟩
        have htdx : fx.teardown.isSome = true :=
          setup_has_teardown_get htt hf (by simp [hsu])
        simp [reg_teardown_p, hf, hs, hpres, htdx, hps]
      | none =>
        have hps : reg_setup_p g scope x = false := by simp [reg_setup_p, hf, hs, hsu]
        cases hfind : (assoc_find x insts₂).isSome with
        | true =>
          exfalso
          have hcon := (hmem x).mp hfind
          rw [hps] at hcon
          exact Bool.false_ne_true hcon.1
        | false => simp [reg_teardown_p, reg_setup_p, hf, hs, hsu, hfind]
    · simp [reg_teardown_p, reg_setup_p, hf, hs]

/-- A setup pass from an empty table followed by a teardown pass over the
reversed order performs exactly the reversed invocation sequence. -/
theorem scope_roundtrip (g : FixtureDependencyGraph) (scope : FixtureScope)
    (ctx : TestContext) (order : List String) (hnd : order.Nodup)
    (hsetup : setups_ok g ctx = true) (htear : teardowns_ok g ctx = true)
    (htt : setup_has_teardown g = true) :
    ∃ insts₂, (setup_scope_go g scope ctx order [] []).2 = Except.ok insts₂ ∧
      (teardown_scope_go g scope ctx order.reverse insts₂ []).1 =
        ((setup_scope_go g scope ctx order [] []).1).reverse := by
  obtain ⟨h1, insts₂, h2, h3⟩ := setup_go_spec g scope ctx hsetup order [] []
  refine ⟨insts₂, h2, ?_⟩
  have htg := teardown_go_spec g scope ctx htear order.reverse insts₂ []
    (List.nodup_reverse.mpr hnd)
  rw [htg, h1]
  simp only [List.nil_append]
  rw [List.filter_congr (fun x hx =>
    teardown_p_eq_setup_p htt (fun n => by simpa [assoc_find] using h3 n) x
      (List.mem_reverse.mp hx)), List.filter_reverse]

/-- C5 (amended): for the `FixtureRegistry` (the teardown path used by the
in-process suite executor), a teardown pass performs exactly the reverse of
the setup pass's invocation sequence, for both the test scope and the suite
scope — given a resolved order, all setup/teardown callbacks succeeding, and
every fixture with a setup having a teardown.  The claim as stated also
covers `FixtureManager::teardown_by_scope`, which drains a `HashMap` in
unspecified order and offers no such guarantee: see the counterexample. -/
theorem C5_registry_teardown_reverse (r : FixtureRegistry) (ctx : TestContext)
    (order : List String) (hord : r.graph.resolve_order = Except.ok order)
    (hnd : order.Nodup) (hsetup : setups_ok r.graph ctx = true)
    (htear : teardowns_ok r.graph ctx = true)
    (htt : setup_has_teardown r.graph = true)
    (het : r.test_instances = []) (hes : r.suite_instances = []) :
    (∃ r₂, (r.setup_test_fixtures ctx).2 = Except.ok r₂ ∧
      (r₂.teardown_test_fixtures ctx).1 = ((r.setup_test_fixtures ctx).1).reverse) ∧
    (∃ r₂, (r.setup_suite_fixtures ctx).2 = Except.ok r₂ ∧
      (r₂.teardown_suite_fixtures ctx).1 = ((r.setup_suite_fixtures ctx).1).reverse) := by
  constructor
  · obtain ⟨insts₂, h2, hrev⟩ :=
      scope_roundtrip r.graph FixtureScope.Test ctx order hnd hsetup htear htt
    refine ⟨{ r with test_instances := insts₂ }, ?_, ?_⟩
    · unfold FixtureRegistry.setup_test_fixtures
      rw [hord, het]
      dsimp only
      rw [show setup_scope_go r.graph FixtureScope.Test ctx order [] [] =
          ((setup_scope_go r.graph FixtureScope.Test ctx order [] []).1,
            Except.ok insts₂) from by rw [← h2]]
    · unfold FixtureRegistry.teardown_test_fixtures
      dsimp only
      rw [hord]
      dsimp only
      unfold FixtureRegistry.setup_test_fixtures
      rw [hord, het]
      dsimp only
      rw [show setup_scope_go r.graph FixtureScope.Test ctx order [] [] =
          ((setup_scope_go r.graph FixtureScope.Test ctx order [] []).1,
            Except.ok insts₂) from by rw [← h2]]
      rcases hw : teardown_scope_go r.graph FixtureScope.Test ctx order.reverse insts₂ []
        with ⟨tinv, tout⟩
      have htinv : tinv =
          ((setup_scope_go r.graph FixtureScope.Test ctx order [] []).1).reverse := by
        rw [hw] at hrev
        simpa using hrev
      cases tout <;> dsimp only <;> exact htinv
  · obtain ⟨insts₂, h2, hrev⟩ :=
      scope_roundtrip r.graph FixtureScope.Suite ctx order hnd hsetup htear htt
    refine ⟨{ r with suite_instances := insts₂ }, ?_, ?_⟩
    · unfold FixtureRegistry.setup_suite_fixtures
      rw [hord, hes]
      dsimp only
      rw [show setup_scope_go r.graph FixtureScope.Suite ctx order [] [] =
          ((setup_scope_go r.graph FixtureScope.Suite ctx order [] []).1,
            Except.ok insts₂) from by rw [← h2]]
    · unfold FixtureRegistry.teardown_suite_fixtures
      dsimp only
      rw [hord]
      dsimp only
      unfold FixtureRegistry.setup_suite_fixtures
      rw [hord, hes]
      dsimp only
      rw [show setup_scope_go r.graph FixtureScope.Suite ctx order [] [] =
          ((setup_scope_go r.graph FixtureScope.Suite ctx order [] []).1,
            Except.ok insts₂) from by rw [← h2]]
      rcases hw : teardown_scope_go r.graph FixtureScope.Suite ctx order.reverse insts₂ []
        with ⟨tinv, tout⟩
      have htinv : tinv =
          ((setup_scope_go r.graph FixtureScope.Suite ctx order [] []).1).reverse := by
        rw [hw] at hrev
        simpa using hrev
      cases tout <;> dsimp only <;> exact htinv

/-- C5 counterexample: two session fixtures set up as `a` then `b`;
`["a", "b"]` enumerates exactly the drained table's keys, so it is a
possible `HashMap::drain` order, under which `teardown_by_scope` performs
the teardown invocations in setup order, not in reverse. -/
theorem C5_manager_drain_counterexample :
    c5_after_setups.1 = ["a", "b"] ∧
    c5_after_setups.2 = Except.ok c5_m2 ∧
    c5_m2.session_fixtures.map Prod.fst = ["a", "b"] ∧
    (c5_m2.teardown_by_scope FixtureScope.Session ["a", "b"]).1 = ["a", "b"] ∧
    (c5_m2.teardown_by_scope FixtureScope.Session ["a", "b"]).1 ≠
      c5_after_setups.1.reverse :=
  ⟨by decide, rfl, by decide, by decide, by decide⟩

/-- C5 witness: the registry reversal at a concrete two-fixture graph. -/
theorem C5_registry_teardown_reverse_witness :
    (c5_reg.graph.resolve_order = Except.ok ["A", "B"]) ∧
    (setups_ok c5_reg.graph c5_ctx = true) ∧
    (∃ r₂, (c5_reg.setup_test_fixtures c5_ctx).2 = Except.ok r₂ ∧
      (r₂.teardown_test_fixtures c5_ctx).1 =
        ((c5_reg.setup_test_fixtures c5_ctx).1).reverse) :=
  ⟨rfl, by decide,
    (C5_registry_teardown_reverse c5_reg c5_ctx ["A", "B"] rfl (by decide) (by decide)
      (by decide) (by decide) rfl rfl).1⟩

/-- C4 (amended): for every graph whose dependency names are all registered,
if the dependency relation is acyclic then `resolve_order` returns an order
containing each registered fixture exactly once in which every fixture
appears strictly before every fixture that depends on it (determinism is
inherent: resolution is a pure function iterating the fixtures in
registration order); and if the graph has a cycle it returns the
circular-dependency error naming a fixture involved in a cycle — never any
order.  The registered-dependencies premise is also needed for the cycle
half: see the counterexample, where an unregistered dependency met first
yields the undefined-fixture error instead. -/
theorem C4_resolve_order_topological (g : FixtureDependencyGraph)
    (hreg : AllDepsRegB g = true) :
    (¬ HasCycle g → ∃ l, g.resolve_order = Except.ok l ∧ l.Nodup ∧
      (∀ k, k ∈ l ↔ k ∈ g.keys) ∧ DepsClosed g l) ∧
    (HasCycle g → ∃ m, g.resolve_order = Except.error (FixtureError.circular m) ∧
      InvolvedInCycle g m) := by
  constructor
  · intro hnc
    cases hr : g.resolve_order with
    | ok l =>
      obtain ⟨hnd, hiff, hdc⟩ := resolve_ok_props g hreg l hr
      exact ⟨l, rfl, hnd, hiff, hdc⟩
    | error e =>
      obtain ⟨m, _, c, hc, _⟩ := resolve_err_circular g hreg e hr
      exact absurd ⟨c, hc⟩ hnc
  · exact cycle_resolve_error g hreg

/-- C4 witness: the theorem applied to a concrete acyclic chain and to a
concrete registered two-cycle. -/
theorem C4_resolve_order_topological_witness :
    (AllDepsRegB c4_g_acyclic = true) ∧
    (∃ l, c4_g_acyclic.resolve_order = Except.ok l ∧ l.Nodup ∧
      (∀ k, k ∈ l ↔ k ∈ c4_g_acyclic.keys) ∧ DepsClosed c4_g_acyclic l) ∧
    (∃ m, c4_g_cycle.resolve_order = Except.error (FixtureError.circular m) ∧
      InvolvedInCycle c4_g_cycle m) :=
  ⟨by decide,
    (C4_resolve_order_topological c4_g_acyclic (by decide)).1
      (resolve_ok_acyclic c4_g_acyclic (by decide) ["A", "B", "C"] rfl),
    (C4_resolve_order_topological c4_g_cycle (by decide)).2
      ⟨["A", "B"], by decide⟩⟩

/-- C4 counterexample: a graph that contains a dependency cycle (`B → B`)
but whose resolution returns the undefined-fixture error for `A → Z`
(`Z` unregistered, met first in registration order), not a cycle error. -/
theorem C4_cycle_error_counterexample :
    HasCycle c4_g_ce ∧
    c4_g_ce.resolve_order = Except.error (FixtureError.undefined "A" "Z") ∧
    is_circular_err c4_g_ce.resolve_order = false :=
  ⟨⟨["B"], by decide⟩, rfl, rfl⟩

/-- C7 witness: fail-fast at a concrete failing suite. -/
theorem C7_fail_fast_witness :
    ({ fail_fast := true : RunnerConfig }.fail_fast = true) ∧
    (((SuiteResult.new "a").add_test_result
        ((TestResult.new "t" (TestMetadata.new "t")).finish TestStatus.Failed
          none)).all_passed = false) ∧
    (cargo.execute_tests { fail_fast := true }
        [(TestExecutable.new "pa" "a" "p", Except.ok
            ((SuiteResult.new "a").add_test_result
              ((TestResult.new "t" (TestMetadata.new "t")).finish TestStatus.Failed none))),
          (TestExecutable.new "pb" "b" "p", Except.error (Error.generic "never run")),
          (TestExecutable.new "pc" "c" "p", Except.error (Error.generic "never run"))]).2 =
      ["a"] :=
  ⟨rfl, by decide,
    (C7_fail_fast (TestExecutable.new "pa" "a" "p") (TestExecutable.new "pb" "b" "p")
      (TestExecutable.new "pc" "c" "p")
      ((SuiteResult.new "a").add_test_result
        ((TestResult.new "t" (TestMetadata.new "t")).finish TestStatus.Failed none))
      (Except.error (Error.generic "never run")) (Except.error (Error.generic "never run"))
      { fail_fast := true } rfl (by decide)).2.2⟩

end Sheila
